import Mathlib

/-!
Verification development for the account-requests dashboard.

The Python sources (`email_parser.py`, `app.py`, `database.py`, `audit.py`)
are shallowly embedded as executable Lean functions.  Strings are modelled
as `List Char` internally (ASCII-faithful: Python's `.lower()`, `.upper()`,
`.strip()` and the regex class `\s` are modelled on the ASCII fragment the
application works with).  The SQLite store is modelled as in-memory lists of
rows; `ORDER BY created_at` is modelled as a stable insertion sort on a
numeric `created_at` field (ISO-8601 timestamps compare lexicographically,
which is order-isomorphic to a numeric clock), truly concurrent interleaving
of key generation and row insertion is modelled by letting an attempt carry
the `MAX(id)` value it observed when its key was generated.
-/

namespace AcctDash

/-! ### Python string primitives (ASCII model) -/

/-- Character class `\s` of Python's `re` module (also the default chars
removed by `str.strip()`): space, tab, newline, carriage return, vertical
tab, form feed. -/
def pyIsSpace (c : Char) : Bool :=
  c == ' ' || c == '\t' || c == '\n' || c == '\r' || c == '\x0b' || c == '\x0c'

/-- Python `str.strip()` on a character list. -/
def stripChars (l : List Char) : List Char :=
  ((l.dropWhile pyIsSpace).reverse.dropWhile pyIsSpace).reverse

/-- Python `str.lower()` (ASCII). -/
def lowerChars (l : List Char) : List Char := l.map Char.toLower

/-- Python `str.upper()` (ASCII). -/
def upperChars (l : List Char) : List Char := l.map Char.toUpper

/-- Python `str.strip()` on `String`. -/
def pyStrip (s : String) : String := ⟨stripChars s.data⟩

/-- Python `str.lower()` on `String`. -/
def pyLower (s : String) : String := ⟨lowerChars s.data⟩

/-- Python `str.upper()` on `String`. -/
def pyUpper (s : String) : String := ⟨upperChars s.data⟩

/-- Python truthiness of an optional string: `None` and `""` are falsy. -/
def pyTruthyOpt : Option String → Bool
  | none => false
  | some s => s ≠ ""

/-- Python `x or y` where `x` is an optional string and `y` a string. -/
def pyOrStr (x : Option String) (y : String) : String :=
  match x with
  | none => y
  | some s => if s = "" then y else s

/-- Python `x or y` on two plain strings. -/
def strOr (x y : String) : String := if x = "" then y else x

/-- Case-insensitive equality of two characters (ASCII). -/
def charEqCI (a b : Char) : Bool := a.toLower == b.toLower

/-- Case-insensitive prefix test on character lists (ASCII). -/
def isPrefixCI : List Char → List Char → Bool
  | [], _ => true
  | _ :: _, [] => false
  | p :: ps, c :: cs => charEqCI p c && isPrefixCI ps cs

/-! ### `email_parser.strip_html` (lines 92-135)

Each `re.sub` call of the source is translated to a left-to-right scanner
with the exact matching semantics of the corresponding pattern (greedy or
lazy, `DOTALL` / `IGNORECASE` as flagged in the source).  Scanners that jump
past a removed block recurse on a list that is not a structural subterm, so
they take a fuel argument; the wrappers supply `length + 1` fuel, which is
always sufficient because every step consumes at least one character. -/

/-- Index (as a split) of the first occurrence of `pat` in `s`: returns the
suffix of `s` starting right after that occurrence, or `none`.  Matching is
case-insensitive when `ci` is set. -/
def dropThroughCI (ci : Bool) (pat : List Char) : List Char → Option (List Char)
  | [] => if pat.isEmpty then some [] else none
  | c :: cs =>
    if (if ci then isPrefixCI pat (c :: cs) else pat.isPrefixOf (c :: cs)) then
      some ((c :: cs).drop pat.length)
    else
      dropThroughCI ci pat cs

/-- Scanner for `re.sub(r'<!--.*?-->', '', text, flags=re.DOTALL)`: each
lazy match spans from a `<!--` to the nearest following `-->`. -/
def removeCommentsGo : Nat → List Char → List Char
  | 0, s => s
  | _ + 1, [] => []
  | fuel + 1, c :: cs =>
    if "<!--".data.isPrefixOf (c :: cs) then
      match dropThroughCI false "-->".data ((c :: cs).drop 4) with
      | some rest => removeCommentsGo fuel rest
      | none => c :: cs
    else
      c :: removeCommentsGo fuel cs

def removeComments (s : List Char) : List Char := removeCommentsGo (s.length + 1) s

/-- Scanner for `re.sub(r'<TAG[^>]*>.*?</TAG>', '', text, DOTALL|IGNORECASE)`
with `TAG` either `style` or `script`: from `<TAG`, `[^>]*>` runs to the
first `>`, then the lazy body ends at the nearest `</TAG>`. -/
def removeBlockGo (openTag closeTag : List Char) : Nat → List Char → List Char
  | 0, s => s
  | _ + 1, [] => []
  | fuel + 1, c :: cs =>
    if isPrefixCI openTag (c :: cs) then
      let afterOpen := (c :: cs).drop openTag.length
      let afterAngle := afterOpen.dropWhile (fun ch => ch ≠ '>')
      match afterAngle with
      | '>' :: body =>
        match dropThroughCI true closeTag body with
        | some rest => removeBlockGo openTag closeTag fuel rest
        | none => c :: cs
      | _ => c :: cs
    else
      c :: removeBlockGo openTag closeTag fuel cs

def removeBlock (openTag closeTag : String) (s : List Char) : List Char :=
  removeBlockGo openTag.data closeTag.data (s.length + 1) s

/-- Scanner for `re.sub(r'<br\s*/?>', '\n', text, flags=re.IGNORECASE)`. -/
def replaceBrGo : Nat → List Char → List Char
  | 0, s => s
  | _ + 1, [] => []
  | fuel + 1, c :: cs =>
    if isPrefixCI "<br".data (c :: cs) then
      let afterBr := (c :: cs).drop 3
      let afterWs := afterBr.dropWhile pyIsSpace
      match afterWs with
      | '/' :: '>' :: rest => '\n' :: replaceBrGo fuel rest
      | '>' :: rest => '\n' :: replaceBrGo fuel rest
      | _ => c :: replaceBrGo fuel cs
    else
      c :: replaceBrGo fuel cs

/-- Scanner for `re.sub(r'</p>', '\n', text, flags=re.IGNORECASE)`. -/
def replaceClosePGo : Nat → List Char → List Char
  | 0, s => s
  | _ + 1, [] => []
  | fuel + 1, c :: cs =>
    if isPrefixCI "</p>".data (c :: cs) then
      '\n' :: replaceClosePGo fuel ((c :: cs).drop 4)
    else
      c :: replaceClosePGo fuel cs

/-- Scanner for `re.sub(r'<p[^>]*>', '', text, flags=re.IGNORECASE)`. -/
def removeOpenPGo : Nat → List Char → List Char
  | 0, s => s
  | _ + 1, [] => []
  | fuel + 1, c :: cs =>
    if isPrefixCI "<p".data (c :: cs) then
      let afterP := (c :: cs).drop 2
      let afterNonAngle := afterP.dropWhile (fun ch => ch ≠ '>')
      match afterNonAngle with
      | '>' :: rest => removeOpenPGo fuel rest
      | _ => c :: removeOpenPGo fuel cs
    else
      c :: removeOpenPGo fuel cs

/-- Scanner for `re.sub(r'<[^>]+>', '', text)`: a `<`, at least one
non-`>` character, then `>`. -/
def removeTagsGo : Nat → List Char → List Char
  | 0, s => s
  | _ + 1, [] => []
  | fuel + 1, c :: cs =>
    if c = '<' then
      let inner := cs.takeWhile (fun ch => ch ≠ '>')
      let rest := cs.drop inner.length
      match rest with
      | '>' :: rest' =>
        if inner.isEmpty then c :: removeTagsGo fuel cs
        else removeTagsGo fuel rest'
      | _ => c :: removeTagsGo fuel cs
    else
      c :: removeTagsGo fuel cs

/-- Python `str.replace(pat, rep)`: replace every non-overlapping occurrence
left to right. -/
def replaceAllGo (pat rep : List Char) : Nat → List Char → List Char
  | 0, s => s
  | _ + 1, [] => []
  | fuel + 1, c :: cs =>
    if pat.isPrefixOf (c :: cs) ∧ ¬pat.isEmpty then
      rep ++ replaceAllGo pat rep fuel ((c :: cs).drop pat.length)
    else
      c :: replaceAllGo pat rep fuel cs

def replaceAll (pat rep : String) (s : List Char) : List Char :=
  replaceAllGo pat.data rep.data (s.length + 1) s

/-- The entity table of `strip_html` (lines 115-125), applied sequentially
in the source's (insertion-ordered) dict order. -/
def decodeEntities (s : List Char) : List Char :=
  let s := replaceAll "&nbsp;" " " s
  let s := replaceAll "&amp;" "&" s
  let s := replaceAll "&lt;" "<" s
  let s := replaceAll "&gt;" ">" s
  let s := replaceAll "&quot;" "\"" s
  let s := replaceAll "&#39;" "'" s
  replaceAll "&apos;" "'" s

/-- Scanner for `re.sub(r'\n\s*\n+', '\n\n', text)`: a maximal match starts
at a newline and extends through the last newline of the following
whitespace run (which must contain at least one more newline); it is
replaced by exactly one blank line. -/
def collapseBlankGo : Nat → List Char → List Char
  | 0, s => s
  | _ + 1, [] => []
  | fuel + 1, c :: cs =>
    if c = '\n' then
      let run := cs.takeWhile pyIsSpace
      let rest := cs.drop run.length
      if run.contains '\n' then
        let tailNoNl := (run.reverse.takeWhile (fun ch => ch ≠ '\n')).reverse
        '\n' :: '\n' :: collapseBlankGo fuel (tailNoNl ++ rest)
      else
        c :: collapseBlankGo fuel cs
    else
      c :: collapseBlankGo fuel cs

def collapseBlank (s : List Char) : List Char := collapseBlankGo (s.length + 1) s

/-- Python `text.split('\n')` on a character list. -/
def splitLines (l : List Char) : List (List Char) :=
  l.splitOn '\n'

/-- Python `'\n'.join(lines)` after stripping each line (lines 131-133). -/
def stripEachLine (l : List Char) : List Char :=
  (List.intercalate ['\n'] ((splitLines l).map stripChars))

/-- Embedding of `email_parser.strip_html` (lines 92-135). -/
def strip_html (text : String) : String :=
  if text = "" then ""
  else
    let s := text.data
    let s := removeComments s
    let s := removeBlock "<style" "</style>" s
    let s := removeBlock "<script" "</script>" s
    let s := replaceBrGo (s.length + 1) s
    let s := replaceClosePGo (s.length + 1) s
    let s := removeOpenPGo (s.length + 1) s
    let s := removeTagsGo (s.length + 1) s
    let s := decodeEntities s
    let s := collapseBlank s
    let s := stripEachLine s
    ⟨stripChars s⟩

/-! ### `email_parser.parse_ilab_email` (lines 17-89)

The six field patterns of the source are `re.search`es with
`IGNORECASE | MULTILINE`.  Their exact backtracking semantics are encoded
as deterministic scanners:

* the prefix `(?:^|\n)\s*KEY:` matches at a key occurrence `j` iff the
  maximal whitespace run ending at `j` starts at the beginning of the input
  or contains a newline (`\s` crosses line boundaries, and `^`/a literal
  newline anchor the run's left end);
* for `KEY: value` fields, the greedy `\s*` after the colon puts the lazy
  group `(.+?)(?:\n|$)` at the first non-whitespace character, where it runs
  to the next newline or the end; when only whitespace remains, backtracking
  lands the group on the last non-newline whitespace character (yielding a
  value that strips to `""`), and the occurrence fails entirely when only
  newlines (or nothing) remain;
* `re.search` takes the leftmost completable occurrence and moves on when
  an occurrence cannot complete. -/

/-- State of the `(?:^|\n)\s*` anchor during a left-to-right scan: true iff
the maximal whitespace run ending at the current position starts at the
beginning of the string or contains a newline. -/
def anchorStep (flag : Bool) (c : Char) : Bool :=
  if c = '\n' then true
  else if pyIsSpace c then flag
  else false

/-- Value extraction for `KEY:\s*(.+?)(?:\n|$)` after the colon, per the
backtracking analysis above.  Returns the raw group (pre-`strip`). -/
def extractSimpleValue (cs : List Char) : Option (List Char) :=
  let rest := cs.dropWhile pyIsSpace
  match rest with
  | _ :: _ => some (rest.takeWhile (fun c => c ≠ '\n'))
  | [] =>
    let run := cs.takeWhile pyIsSpace
    match run.reverse.dropWhile (fun c => c = '\n') with
    | c :: _ => some [c]
    | [] => none

/-- Value extraction for `email:\s*(\S+@\S+)`: the greedy `\s*` puts the
group at the first non-whitespace character; `\S+@\S+` then matches iff the
maximal non-whitespace token there contains an `@` with at least one token
character on each side, and captures the whole token. -/
def extractEmailValue (cs : List Char) : Option (List Char) :=
  let rest := cs.dropWhile pyIsSpace
  let token := rest.takeWhile (fun c => ¬pyIsSpace c)
  if (token.drop 1).dropLast.contains '@' then some token else none

/-- Value extraction for `link:\s*\n?\s*(https?://\S+)`: the group starts at
the first non-whitespace character and must be a token beginning with
`http://` or `https://` (case-insensitively) followed by at least one more
character; it captures the whole token in original case. -/
def extractLinkValue (cs : List Char) : Option (List Char) :=
  let rest := cs.dropWhile pyIsSpace
  let token := rest.takeWhile (fun c => ¬pyIsSpace c)
  if isPrefixCI "https://".data token ∧ 8 < token.length then some token
  else if isPrefixCI "http://".data token ∧ 7 < token.length then some token
  else none

/-- Leftmost-occurrence scan shared by all six field patterns.  `key` is the
lowercase key including the trailing colon; `extract` is the per-pattern
value extractor; `flag` carries the anchor state. -/
def searchKeyGo (key : List Char) (extract : List Char → Option (List Char)) :
    List Char → Bool → Option (List Char)
  | [], _ => none
  | c :: cs, flag =>
    (if flag ∧ isPrefixCI key (c :: cs) then
      extract ((c :: cs).drop key.length)
    else none).orElse
      (fun _ => searchKeyGo key extract cs (anchorStep flag c))

def searchKey (key : String) (extract : List Char → Option (List Char))
    (s : List Char) : Option (List Char) :=
  searchKeyGo key.data extract s true

/-- Suffix matcher for the subject fallback
`re.match(r'^(.+?)\s+is\s+requesting\s+an?\s+account', subject, IGNORECASE)`:
checks `\s+is\s+requesting\s+an?\s+account` at the start of `cs`. -/
def wsThenLitCI (lit : List Char) (cs : List Char) : Option (List Char) :=
  let ws := cs.takeWhile pyIsSpace
  let rest := cs.drop ws.length
  if ws.length = 0 then none
  else if isPrefixCI lit rest then some (rest.drop lit.length) else none

def subjectSuffixMatches (cs : List Char) : Bool :=
  match wsThenLitCI "is".data cs with
  | none => false
  | some r1 =>
    match wsThenLitCI "requesting".data r1 with
    | none => false
    | some r2 =>
      match wsThenLitCI "a".data r2 with
      | none => false
      | some r3 =>
        match r3 with
        | c :: r4 =>
          if charEqCI c 'n' ∧ (wsThenLitCI "account".data r4).isSome then true
          else (wsThenLitCI "account".data r3).isSome
        | [] => false

/-- The lazy group `^(.+?)` of the subject fallback: try the shortest
non-empty newline-free prefixes in increasing length. -/
def subjectNameGo : List Char → List Char → Option (List Char)
  | _, [] => none
  | acc, c :: cs =>
    if c = '\n' then none
    else if subjectSuffixMatches cs then some (acc ++ [c])
    else subjectNameGo (acc ++ [c]) cs

def subjectFallbackName (subject : List Char) : Option (List Char) :=
  subjectNameGo [] subject

/-- Result record of `parse_ilab_email` (source lines 37-46). -/
structure ParsedEmail where
  requester_name : Option String
  requester_email : Option String
  institution : Option String
  lab_name : Option String
  request_time : Option String
  ilab_link : Option String
  raw_body : String
  is_valid : Bool
  deriving Repr, DecidableEq

/-- Embedding of `email_parser.parse_ilab_email` (lines 17-89).  The third
parameter mirrors the unused `sender` argument of the source. -/
def parse_ilab_email (subject body : String) (_sender : String) : ParsedEmail :=
  let clean := (strip_html body).data
  let nameV := (searchKey "name:" extractSimpleValue clean).map
    (fun v => (⟨stripChars v⟩ : String))
  let emailV := (searchKey "email:" extractEmailValue clean).map
    (fun v => pyLower ⟨stripChars v⟩)
  let instV := (searchKey "institution:" extractSimpleValue clean).map
    (fun v => (⟨stripChars v⟩ : String))
  let labV := (searchKey "lab_name:" extractSimpleValue clean).map
    (fun v => (⟨stripChars v⟩ : String))
  let timeV := (searchKey "time:" extractSimpleValue clean).map
    (fun v => (⟨stripChars v⟩ : String))
  let linkV := (searchKey "link:" extractLinkValue clean).map
    (fun v => (⟨stripChars v⟩ : String))
  let nameV :=
    if pyTruthyOpt nameV = false ∧ subject ≠ "" then
      match subjectFallbackName subject.data with
      | some g => some (⟨stripChars g⟩ : String)
      | none => nameV
    else nameV
  { requester_name := nameV
    requester_email := emailV
    institution := instV
    lab_name := labV
    request_time := timeV
    ilab_link := linkV
    raw_body := body
    is_valid := pyTruthyOpt emailV || pyTruthyOpt nameV }

/-! ### `app.parse_name_from_email` (lines 660-672) -/

/-- Python `re.split(r'[._-]', s)`: split at every separator occurrence,
keeping empty segments. -/
def splitSeps (l : List Char) : List (List Char) :=
  match l.splitOnP (fun c => c == '.' || c == '_' || c == '-') with
  | [] => [[]]
  | xs => xs

/-- Python `str.capitalize()` (ASCII): first character uppercased, the rest
lowercased. -/
def pyCapitalize (l : List Char) : List Char :=
  match l with
  | [] => []
  | c :: cs => c.toUpper :: cs.map Char.toLower

/-- Embedding of `app.parse_name_from_email` (lines 660-672). -/
def parse_name_from_email (email : String) : String :=
  if email = "" then "Unknown"
  else
    let pre := email.data.takeWhile (fun c => c ≠ '@')
    let parts := splitSeps pre
    ⟨List.intercalate [' '] ((parts.filter (fun p => ¬p.isEmpty)).map pyCapitalize)⟩

/-- Rendering of the claim's (and spec §4.3's) description of the name
derivation, following its words: split the local-part on `.`, `_`, `-` and
title-case each segment joined by spaces — with no mention of dropping
empty segments. -/
def specNameFromEmail (email : String) : String :=
  if email = "" then "Unknown"
  else
    let pre := email.data.takeWhile (fun c => c ≠ '@')
    ⟨List.intercalate [' '] ((splitSeps pre).map pyCapitalize)⟩

/-! ### `database.py` data model

The SQLite tables are modelled as in-memory lists in rowid (insertion)
order.  `created_at` timestamps are modelled as naturals (the source stores
ISO-8601 UTC strings, whose lexicographic order coincides with clock
order); `now` is passed explicitly wherever the source calls
`datetime.now`.  `ORDER BY created_at` is modelled by a stable insertion
sort, so rows with equal timestamps keep rowid order (SQLite leaves such
ties unspecified). -/

/-- Row of the `requests` table (schema lines 44-64). -/
structure RequestRow where
  id : Nat
  request_key : String
  status : String
  requester_email : String
  requester_name : Option String
  organization : Option String
  lab_name : Option String
  request_type : String
  original_subject : Option String
  original_body : Option String
  source_email_id : Option String
  conversation_id : Option String
  assigned_to : Option String
  ilab_link : Option String
  created_at : Nat
  updated_at : Nat
  closed_at : Option Nat
  deriving Repr, DecidableEq

/-- Row of the `request_comments` table (schema lines 67-79). -/
structure CommentRow where
  id : Nat
  request_id : Nat
  author_email : String
  author_name : Option String
  comment_type : String
  body : String
  email_subject : Option String
  created_at : Nat
  deriving Repr, DecidableEq

/-- Row of the `staff_users` table (only the columns the webhook reads). -/
structure StaffRow where
  email : String
  name : String
  is_active : Bool
  deriving Repr, DecidableEq

/-- The persistent store consulted by the webhook. -/
structure DB where
  requests : List RequestRow
  comments : List CommentRow
  staff : List StaffRow
  deriving Repr, DecidableEq

/-- SQL `SELECT MAX(id)` over a row list, with `NULL` read as 0 (source
line 198 `(result or 0)`). -/
def maxRowId (rs : List RequestRow) : Nat := (rs.map (fun r => r.id)).foldl max 0

def maxCommentId (cs : List CommentRow) : Nat := (cs.map (fun c => c.id)).foldl max 0

/-- Structural computation of the little-endian base-10 digits; proved
equal to `Nat.digits 10` below, and unlike it reducible by evaluation. -/
def decDigitsGo : Nat → Nat → List Nat
  | 0, _ => []
  | _ + 1, 0 => []
  | fuel + 1, n + 1 => (n + 1) % 10 :: decDigitsGo fuel ((n + 1) / 10)

def decDigitsNat (n : Nat) : List Nat := decDigitsGo n n

/-- Decimal rendering of a natural number (most significant digit
first). -/
def decRepr (n : Nat) : List Char :=
  if n = 0 then ['0']
  else ((decDigitsNat n).reverse.map (fun d => Char.ofNat (48 + d)))

/-- Python `f"{n:04d}"`: left-pad the decimal rendering with zeros to at
least four characters. -/
def pad4 (n : Nat) : List Char :=
  List.replicate (4 - (decRepr n).length) '0' ++ decRepr n

/-- Request key `ACCT-NNNN` for ticket number `n` (source line 199). -/
def acctKey (n : Nat) : String := ⟨"ACCT-".data ++ pad4 n⟩

/-- Embedding of `database.generate_request_key` (lines 191-199). -/
def generate_request_key (rs : List RequestRow) : String :=
  acctKey (maxRowId rs + 1)

/-- SQL `INSERT` into `requests`, enforcing the table's
`request_key TEXT UNIQUE` constraint: a violating insert fails and leaves
the table unchanged (the source's connection is closed uncommitted when the
statement raises). -/
def insertRequest (rs : List RequestRow) (r : RequestRow) : Option (List RequestRow) :=
  if rs.any (fun x => x.request_key == r.request_key) then none
  else some (rs ++ [r])

/-- Field arguments of `database.create_request` (lines 202-205), with the
source's Python defaults made explicit at call sites. -/
structure CreateFields where
  requester_email : String
  requester_name : Option String
  organization : Option String
  original_subject : Option String
  original_body : Option String
  source_email_id : Option String
  conversation_id : Option String
  request_type : String
  ilab_link : Option String
  lab_name : Option String
  deriving Repr, DecidableEq

/-- The row stored by `create_request` (id = next rowid, status defaulting
to `Open`, creation/update timestamps set to `now`, requester email
lowercased and stripped). -/
def mkRequestRow (id : Nat) (request_key : String) (now : Nat) (f : CreateFields) :
    RequestRow :=
  { id := id
    request_key := request_key
    status := "Open"
    requester_email := pyStrip (pyLower f.requester_email)
    requester_name := f.requester_name
    organization := f.organization
    lab_name := f.lab_name
    request_type := f.request_type
    original_subject := f.original_subject
    original_body := f.original_body
    source_email_id := f.source_email_id
    conversation_id := f.conversation_id
    assigned_to := none
    ilab_link := f.ilab_link
    created_at := now
    updated_at := now
    closed_at := none }

/-- Embedding of `database.create_request` (lines 202-244): generates the
key from the current `MAX(id)`, inserts the row, and returns the stored
row.  Fails (returning `none`, the source's propagated `IntegrityError`)
when the generated key already exists. -/
def create_request (db : DB) (now : Nat) (f : CreateFields) : Option (RequestRow × DB) :=
  let request_key := generate_request_key db.requests
  let row := mkRequestRow (maxRowId db.requests + 1) request_key now f
  match insertRequest db.requests row with
  | none => none
  | some rs => some (row, { db with requests := rs })

/-- Stable insertion step for descending `created_at` order: an incoming
earlier-rowid element goes before later elements with the same timestamp. -/
def insertByCreatedDesc (r : RequestRow) : List RequestRow → List RequestRow
  | [] => [r]
  | x :: xs =>
    if x.created_at ≤ r.created_at then r :: x :: xs
    else x :: insertByCreatedDesc r xs

def sortByCreatedDesc : List RequestRow → List RequestRow
  | [] => []
  | x :: xs => insertByCreatedDesc x (sortByCreatedDesc xs)

/-- Stable insertion step for ascending `created_at` order. -/
def insertByCreatedAsc (r : RequestRow) : List RequestRow → List RequestRow
  | [] => [r]
  | x :: xs =>
    if r.created_at ≤ x.created_at then r :: x :: xs
    else x :: insertByCreatedAsc r xs

def sortByCreatedAsc : List RequestRow → List RequestRow
  | [] => []
  | x :: xs => insertByCreatedAsc x (sortByCreatedAsc xs)

/-- Substring occurrence test on character lists. -/
def listHasInfix (needle : List Char) : List Char → Bool
  | [] => needle.isEmpty
  | c :: cs => needle.isPrefixOf (c :: cs) || listHasInfix needle cs

/-- SQLite `LIKE '%q%'` on ASCII text: case-insensitive substring. -/
def likeContains (field q : String) : Bool :=
  listHasInfix (lowerChars q.data) (lowerChars field.data)

/-- Embedding of `database.get_all_requests` (lines 267-290): optional
exact status filter (skipped for `'All'` and for falsy values), optional
case-insensitive substring search over requester email, requester name and
key (a `NULL` name never matches), newest-created first. -/
def get_all_requests (db : DB) (status_filter search_query : Option String) :
    List RequestRow :=
  let keep := fun (r : RequestRow) =>
    (match status_filter with
     | some s => if s ≠ "" ∧ s ≠ "All" then r.status == s else true
     | none => true) &&
    (match search_query with
     | some q =>
       if q ≠ "" then
         likeContains r.requester_email q ||
         (match r.requester_name with
          | some n => likeContains n q
          | none => false) ||
         likeContains r.request_key q
       else true
     | none => true)
  sortByCreatedDesc (db.requests.filter keep)

/-- Embedding of `database.get_request_by_conversation_id` (lines 247-255):
earliest-created row carrying the conversation id. -/
def get_request_by_conversation_id (db : DB) (cid : String) : Option RequestRow :=
  if cid = "" then none
  else
    (sortByCreatedAsc (db.requests.filter (fun r => r.conversation_id == some cid))).head?

/-- Embedding of `database.get_request_by_key` (lines 258-264): exact match
on the uppercased, stripped key. -/
def get_request_by_key (db : DB) (request_key : String) : Option RequestRow :=
  db.requests.find? (fun r => r.request_key == pyStrip (pyUpper request_key))

/-- Embedding of `database.update_request_status` (lines 293-323): reject a
status outside the fixed list, otherwise update every row carrying the key
(`rowcount > 0` becomes the returned flag) with the close timestamp set on
`Closed` and cleared otherwise. -/
def update_request_status (db : DB) (request_key new_status : String) (now : Nat) :
    Bool × DB :=
  if ["Open", "In Progress", "Closed"].contains new_status then
    let hit := db.requests.any (fun r => r.request_key == request_key)
    let rs := db.requests.map (fun r =>
      if r.request_key = request_key then
        { r with
          status := new_status
          updated_at := now
          closed_at := if new_status = "Closed" then some now else none }
      else r)
    (hit, { db with requests := rs })
  else (false, db)

/-- Embedding of `database.add_comment` (lines 345-386): fails without any
write when the key lookup misses; otherwise appends the comment row and
stamps the parent request's `updated_at`. -/
def add_comment (db : DB) (now : Nat) (request_key author_email body : String)
    (author_name : Option String) (comment_type : String)
    (email_subject : Option String) : Option CommentRow × DB :=
  match get_request_by_key db request_key with
  | none => (none, db)
  | some req =>
    let c : CommentRow :=
      { id := maxCommentId db.comments + 1
        request_id := req.id
        author_email := pyStrip (pyLower author_email)
        author_name := author_name
        comment_type := comment_type
        body := body
        email_subject := email_subject
        created_at := now }
    (some c,
      { db with
        comments := db.comments ++ [c]
        requests := db.requests.map (fun r =>
          if r.id == req.id then { r with updated_at := now } else r) })

/-- Embedding of `database.get_staff_name` (lines 480-489): no
`is_active` filter, lookup by lowercased stripped email. -/
def get_staff_name (db : DB) (email : String) : Option String :=
  if email = "" then none
  else (db.staff.find? (fun u => u.email == pyStrip (pyLower email))).map (fun u => u.name)

/-! ### `app.webhook_new_request` (lines 675-774)

The model starts at the payload-extraction step (source line 700); the
optional `X-API-Key` gate of lines 694-698 is deployment configuration
outside the resolver logic.  A `get_json()` field absent from the payload
defaults to `''` exactly as in the source. -/

/-- Outcome of the webhook resolver; constructors carry the
`request_key` reported in the JSON response. -/
inductive WebhookResult where
  | bodyRequired
  | duplicate (request_key : String)
  | commentAdded (request_key : String)
  | created (request_key : String)
  | invalidParse
  | serverError
  deriving Repr, DecidableEq

/-- HTTP status code of each webhook outcome (source: 400 at lines 709 and
754, implicit 200 otherwise, 500 for a propagated storage error). -/
def httpCode : WebhookResult → Nat
  | .bodyRequired => 400
  | .duplicate _ => 200
  | .commentAdded _ => 200
  | .created _ => 200
  | .invalidParse => 400
  | .serverError => 500

/-- Webhook payload (source lines 702-706, already defaulted to `''`). -/
structure Payload where
  subject : String
  body : String
  sender : String
  messageId : String
  conversationId : String
  deriving Repr, DecidableEq

/-- The duplicate scan of lines 711-720: the first row of the newest-first
full listing whose `source_email_id` equals the (non-empty) message id. -/
def dupHit (db : DB) (p : Payload) : Option RequestRow :=
  if p.messageId ≠ "" then
    (get_all_requests db none none).find? (fun r => r.source_email_id == some p.messageId)
  else none

/-- The conversation-threading lookup of lines 722-725. -/
def threadHit (db : DB) (p : Payload) : Option RequestRow :=
  if p.conversationId ≠ "" then get_request_by_conversation_id db p.conversationId
  else none

/-- Comment author display-name resolution of lines 726-730. -/
def threadAuthorName (db : DB) (p : Payload) (r : RequestRow) : String :=
  if pyLower p.sender = pyLower r.requester_email then
    pyOrStr r.requester_name (parse_name_from_email p.sender)
  else
    pyOrStr (get_staff_name db p.sender) (parse_name_from_email p.sender)

/-- Field values for the new ticket created at lines 756-767. -/
def webhookCreateFields (p : Payload) (parsed : ParsedEmail) : CreateFields :=
  { requester_email := pyOrStr parsed.requester_email "unknown@unknown.com"
    requester_name := parsed.requester_name
    organization := parsed.institution
    original_subject := some p.subject
    original_body := some p.body
    source_email_id := some p.messageId
    conversation_id := if p.conversationId = "" then none else some p.conversationId
    request_type := "Account Request"
    ilab_link := parsed.ilab_link
    lab_name := parsed.lab_name }

/-- Embedding of `app.webhook_new_request` (lines 700-774). -/
def webhook_new_request (db : DB) (now : Nat) (p : Payload) : WebhookResult × DB :=
  if p.body = "" then (.bodyRequired, db)
  else
    match dupHit db p with
    | some r => (.duplicate r.request_key, db)
    | none =>
      match threadHit db p with
      | some r =>
        let step := add_comment db now r.request_key
          (strOr p.sender "unknown@unknown.com") p.body (some (threadAuthorName db p r))
          "email_received" (some p.subject)
        (.commentAdded r.request_key, step.2)
      | none =>
        let parsed := parse_ilab_email p.subject p.body p.sender
        if parsed.is_valid = false then (.invalidParse, db)
        else
          match create_request db now (webhookCreateFields p parsed) with
          | some (row, db') => (.created row.request_key, db')
          | none => (.serverError, db)

/-! ### `audit.py` (lines 39-167)

Python values passed as the `details` argument are modelled by `PyVal`,
with `obj` standing for any object `json.dumps` rejects.  The audit table
is a list in rowid (insertion) order, so `ORDER BY id DESC` is list
reversal.  Storage availability is an explicit `writeOk` flag: the `try`
block of lines 79-105 swallows a failing write, but `json.dumps` runs at
line 77, before the `try`. -/

/-- Model of a Python value handed to `json.dumps`. -/
inductive PyVal where
  | pynone
  | str (s : String)
  | int (n : Int)
  | boolean (b : Bool)
  | arr (xs : List PyVal)
  | dict (fields : List (String × PyVal))
  | obj (tag : Nat)
  deriving Repr

/-- JSON string escaping (quote and backslash). -/
def jsonEscape (s : String) : String :=
  ⟨s.data.foldr (fun c acc => if c = '"' ∨ c = '\\' then '\\' :: c :: acc else c :: acc) []⟩

mutual

/-- Model of `json.dumps`: total on JSON-representable values, raises
`TypeError` on any `obj` leaf. -/
def jsonDumps : PyVal → Except String String
  | .pynone => .ok "null"
  | .str s => .ok ("\"" ++ jsonEscape s ++ "\"")
  | .int n => .ok (toString n)
  | .boolean b => .ok (if b then "true" else "false")
  | .arr xs => do
    let parts ← jsonDumpsList xs
    .ok ("[" ++ String.intercalate ", " parts ++ "]")
  | .dict kvs => do
    let parts ← jsonDumpsDict kvs
    .ok ("\x7b" ++ String.intercalate ", " parts ++ "\x7d")
  | .obj _ => .error "TypeError: Object of type object is not JSON serializable"

def jsonDumpsList : List PyVal → Except String (List String)
  | [] => .ok []
  | v :: vs => do
    let s ← jsonDumps v
    let rest ← jsonDumpsList vs
    .ok (s :: rest)

def jsonDumpsDict : List (String × PyVal) → Except String (List String)
  | [] => .ok []
  | (k, v) :: kvs => do
    let s ← jsonDumps v
    let rest ← jsonDumpsDict kvs
    .ok (("\"" ++ jsonEscape k ++ "\": " ++ s) :: rest)

end

/-- Row of the `audit_log` table (schema lines 87-100); rowid order is the
list order, so `id` is left implicit. -/
structure AuditEntry where
  event_id : Nat
  timestamp : Nat
  actor_email : String
  actor_ip : Option String
  action : String
  target_type : Option String
  target_id : Option String
  details : String
  success : Bool
  deriving Repr, DecidableEq

/-- Embedding of `audit.log_audit_event` (lines 39-105).  `event_id` and
`timestamp` stand for the fresh uuid and UTC clock reading; `writeOk`
models whether the storage write succeeds.  The result is `.error` exactly
when the call raises to its caller. -/
def log_audit_event (log : List AuditEntry) (actor_email action : String)
    (target_type target_id : Option String) (details : Option PyVal)
    (success : Bool) (actor_ip : Option String) (event_id timestamp : Nat)
    (writeOk : Bool) : Except String (List AuditEntry) :=
  let details_json := jsonDumps (details.getD (.dict []))
  match details_json with
  | .error e => .error e
  | .ok dj =>
    if writeOk then
      .ok (log ++
        [{ event_id := event_id
           timestamp := timestamp
           actor_email := pyStrip (pyLower actor_email)
           actor_ip := actor_ip
           action := action
           target_type := target_type
           target_id := target_id
           details := dj
           success := success }])
    else
      .ok log

/-- Embedding of `audit.get_audit_log` (lines 112-167): optional filters
(each skipped when falsy), newest first, limited.  The actor filter is
lowercased and stripped, the target filter uppercased and stripped, the
action filter is a SQLite `LIKE 'p%'` (modelled as an ASCII
case-insensitive prefix test).  The source additionally re-parses each
returned row's JSON `details` into a dict for display; that presentation
step does not affect which rows are returned and is not modelled. -/
def get_audit_log (log : List AuditEntry)
    (actor_email target_id action_start : Option String) (limit : Nat) :
    List AuditEntry :=
  let keep := fun (e : AuditEntry) =>
    (match actor_email with
     | some a => if a ≠ "" then e.actor_email == pyStrip (pyLower a) else true
     | none => true) &&
    (match target_id with
     | some t => if t ≠ "" then e.target_id == some (pyStrip (pyUpper t)) else true
     | none => true) &&
    (match action_start with
     | some p => if p ≠ "" then isPrefixCI p.data e.action.data else true
     | none => true)
  ((log.filter keep).reverse).take limit

/-! ### Helper lemmas -/

theorem mem_insertByCreatedDesc {r x : RequestRow} {l : List RequestRow} :
    x ∈ insertByCreatedDesc r l ↔ x = r ∨ x ∈ l := by
  induction l with
  | nil => simp [insertByCreatedDesc]
  | cons a l ih =>
    unfold insertByCreatedDesc
    split
    · simp [List.mem_cons]
    · simp only [List.mem_cons, ih]
      tauto

theorem mem_sortByCreatedDesc {x : RequestRow} {l : List RequestRow} :
    x ∈ sortByCreatedDesc l ↔ x ∈ l := by
  induction l with
  | nil => simp [sortByCreatedDesc]
  | cons a l ih =>
    unfold sortByCreatedDesc
    rw [mem_insertByCreatedDesc]
    simp [ih]

theorem mem_insertByCreatedAsc {r x : RequestRow} {l : List RequestRow} :
    x ∈ insertByCreatedAsc r l ↔ x = r ∨ x ∈ l := by
  induction l with
  | nil => simp [insertByCreatedAsc]
  | cons a l ih =>
    unfold insertByCreatedAsc
    split
    · simp [List.mem_cons]
    · simp only [List.mem_cons, ih]
      tauto

theorem mem_sortByCreatedAsc {x : RequestRow} {l : List RequestRow} :
    x ∈ sortByCreatedAsc l ↔ x ∈ l := by
  induction l with
  | nil => simp [sortByCreatedAsc]
  | cons a l ih =>
    unfold sortByCreatedAsc
    rw [mem_insertByCreatedAsc]
    simp [ih]

theorem sorted_insertByCreatedDesc {r : RequestRow} {l : List RequestRow}
    (h : l.Pairwise (fun a b => b.created_at ≤ a.created_at)) :
    (insertByCreatedDesc r l).Pairwise (fun a b => b.created_at ≤ a.created_at) := by
  induction l with
  | nil => simp [insertByCreatedDesc]
  | cons a l ih =>
    unfold insertByCreatedDesc
    rw [List.pairwise_cons] at h
    split
    · rename_i hle
      refine List.Pairwise.cons ?_ (List.Pairwise.cons h.1 h.2)
      intro y hy
      rcases List.mem_cons.mp hy with h1 | h2
      · subst h1
        exact hle
      · exact Nat.le_trans (h.1 y h2) hle
    · rename_i hgt
      refine List.Pairwise.cons ?_ (ih h.2)
      intro y hy
      rcases mem_insertByCreatedDesc.mp hy with h1 | h2
      · subst h1
        omega
      · exact h.1 y h2

theorem sorted_sortByCreatedDesc (l : List RequestRow) :
    (sortByCreatedDesc l).Pairwise (fun a b => b.created_at ≤ a.created_at) := by
  induction l with
  | nil => simp [sortByCreatedDesc]
  | cons a l ih => exact sorted_insertByCreatedDesc ih

theorem sorted_insertByCreatedAsc {r : RequestRow} {l : List RequestRow}
    (h : l.Pairwise (fun a b => a.created_at ≤ b.created_at)) :
    (insertByCreatedAsc r l).Pairwise (fun a b => a.created_at ≤ b.created_at) := by
  induction l with
  | nil => simp [insertByCreatedAsc]
  | cons a l ih =>
    unfold insertByCreatedAsc
    rw [List.pairwise_cons] at h
    split
    · rename_i hle
      refine List.Pairwise.cons ?_ (List.Pairwise.cons h.1 h.2)
      intro y hy
      rcases List.mem_cons.mp hy with h1 | h2
      · subst h1
        exact hle
      · exact Nat.le_trans hle (h.1 y h2)
    · rename_i hgt
      refine List.Pairwise.cons ?_ (ih h.2)
      intro y hy
      rcases mem_insertByCreatedAsc.mp hy with h1 | h2
      · subst h1
        omega
      · exact h.1 y h2

theorem sorted_sortByCreatedAsc (l : List RequestRow) :
    (sortByCreatedAsc l).Pairwise (fun a b => a.created_at ≤ b.created_at) := by
  induction l with
  | nil => simp [sortByCreatedAsc]
  | cons a l ih => exact sorted_insertByCreatedAsc ih

/-- In a list sorted for descending `created_at`, any later element
satisfying the searched predicate is no newer than the first hit. -/
theorem find?_pairwise_bound {m : List RequestRow} {q : RequestRow → Bool} {r : RequestRow}
    (hs : m.Pairwise (fun a b => b.created_at ≤ a.created_at))
    (h : m.find? q = some r) :
    ∀ x ∈ m, q x = true → x.created_at ≤ r.created_at := by
  induction m with
  | nil => simp at h
  | cons a m ih =>
    rw [List.pairwise_cons] at hs
    rw [List.find?_cons] at h
    intro x hx hqx
    rcases List.mem_cons.mp hx with h1 | h2
    · subst h1
      split at h
      · cases h
        exact Nat.le_refl _
      · rename_i hqa
        rw [hqx] at hqa
        simp at hqa
    · split at h
      · cases h
        exact hs.1 x h2
      · exact ih hs.2 h x h2 hqx

/-- A head of an ascending-sorted list is no newer than any member. -/
theorem head?_pairwise_min {m : List RequestRow} {r : RequestRow}
    (hs : m.Pairwise (fun a b => a.created_at ≤ b.created_at))
    (h : m.head? = some r) :
    ∀ x ∈ m, r.created_at ≤ x.created_at := by
  cases m with
  | nil => simp at h
  | cons a m =>
    rw [List.head?_cons, Option.some.injEq] at h
    subst h
    rw [List.pairwise_cons] at hs
    intro x hx
    rcases List.mem_cons.mp hx with h1 | h2
    · subst h1
      exact Nat.le_refl _
    · exact hs.1 x h2

/-- With pairwise-distinct keys, searching a member row's key finds exactly
that row. -/
theorem find?_key_unique {l : List RequestRow} {r : RequestRow}
    (hnd : l.Pairwise (fun a b => a.request_key ≠ b.request_key)) (hr : r ∈ l) :
    l.find? (fun x => x.request_key == r.request_key) = some r := by
  induction l with
  | nil => simp at hr
  | cons a l ih =>
    rw [List.pairwise_cons] at hnd
    rcases List.mem_cons.mp hr with h1 | h2
    · subst h1
      simp [List.find?_cons]
    · rw [List.find?_cons]
      have hne : a.request_key ≠ r.request_key := hnd.1 r h2
      have : (a.request_key == r.request_key) = false := by
        simpa using hne
      rw [this]
      exact ih hnd.2 h2

theorem mem_stripChars {c : Char} {l : List Char} (h : c ∈ stripChars l) : c ∈ l := by
  unfold stripChars at h
  rw [List.mem_reverse] at h
  have h2 := (List.dropWhile_sublist pyIsSpace).subset h
  rw [List.mem_reverse] at h2
  exact (List.dropWhile_sublist pyIsSpace).subset h2

/-- Evaluating `Char.ofNat` below the surrogate range. -/
theorem charToNat_ofNat {n : Nat} (h : n < 55296) : (Char.ofNat n).toNat = n := by
  have hv : n.isValidChar := Or.inl h
  simp [Char.ofNat, hv, Char.ofNatAux, Char.toNat, UInt32.toNat, BitVec.toNat_ofNatLt]

/-- The output of `Char.toUpper` is never an ASCII lowercase letter. -/
theorem toUpper_not_lower (c : Char) :
    ¬(97 ≤ (Char.toUpper c).toNat ∧ (Char.toUpper c).toNat ≤ 122) := by
  by_cases hc : c.toNat ≥ 97 ∧ c.toNat ≤ 122
  · have hlt : c.toNat - 32 < 55296 := by omega
    simp only [Char.toUpper, if_pos hc]
    rw [charToNat_ofNat hlt]
    omega
  · simp only [Char.toUpper, if_neg hc]
    omega

/-- No character of an uppercased string is an ASCII lowercase letter. -/
theorem upperChars_not_lower {c : Char} {l : List Char} (h : c ∈ upperChars l) :
    ¬(97 ≤ c.toNat ∧ c.toNat ≤ 122) := by
  unfold upperChars at h
  rcases List.mem_map.mp h with ⟨d, _, hd⟩
  subst hd
  exact toUpper_not_lower d

/-! ### Claim C3 — audit recorder error behaviour -/

/-- C3: the claim says `log_audit_event` never raises for any input,
including non-JSON-serializable `details`.  The code contradicts this (and
its own comment "Audit failures must NEVER crash the application"):
`json.dumps(details or {})` runs at line 77, before the `try` of lines
79-105, so a non-serializable `details` raises `TypeError` to the caller.
This theorem evaluates the model at the failing input, and also shows the
guarded part behaving as documented: with serializable details a failing
store write is swallowed, and a successful write appends one verbatim row
with the actor email lowercased and stripped. -/
theorem audit_recorder_raises_on_unserializable :
    log_audit_event [] "agent@x.com" "request.status.update" (some "request")
        (some "ACCT-0001") (some (.dict [("boom", .obj 0)])) true none 0 0 true =
      .error "TypeError: Object of type object is not JSON serializable" ∧
    log_audit_event [] "agent@x.com" "request.status.update" none none none
        true none 0 0 false = .ok [] ∧
    log_audit_event [] " Agent@X.com " "a.b" none (some "t") none
        true none 3 5 true =
      .ok [{ event_id := 3, timestamp := 5, actor_email := "agent@x.com",
             actor_ip := none, action := "a.b", target_type := none,
             target_id := some "t", details := "\x7b\x7d", success := true }] := by
  refine ⟨rfl, rfl, rfl⟩

/-! ### Claim C4 — status update contract -/

/-- C4: `update_request_status` rejects any status outside
`{Open, In Progress, Closed}` without touching the store; a successful
update (one that returns `true`, i.e. some row carries the key) stamps
`updated_at`, sets a non-null `closed_at` exactly on transition to
`Closed`, clears it on transition to `Open`/`In Progress`, and leaves
unrelated rows untouched. -/
theorem status_update_contract (db : DB) (request_key new_status : String) (now : Nat) :
    ((["Open", "In Progress", "Closed"].contains new_status) = false →
      update_request_status db request_key new_status now = (false, db)) ∧
    ((["Open", "In Progress", "Closed"].contains new_status) = true →
      (((update_request_status db request_key new_status now).1 = true) ↔
        ∃ r ∈ db.requests, r.request_key = request_key) ∧
      (∀ r ∈ (update_request_status db request_key new_status now).2.requests,
        r.request_key = request_key →
          r.status = new_status ∧ r.updated_at = now ∧
          (new_status = "Closed" → r.closed_at = some now) ∧
          (new_status ≠ "Closed" → r.closed_at = none)) ∧
      (∀ r ∈ (update_request_status db request_key new_status now).2.requests,
        r.request_key ≠ request_key → r ∈ db.requests) ∧
      (update_request_status db request_key new_status now).2.comments = db.comments) := by
  constructor
  · intro h
    unfold update_request_status
    split
    · rename_i hc
      rw [h] at hc
      exact absurd hc (by simp)
    · rfl
  · intro h
    have hu : update_request_status db request_key new_status now =
        (db.requests.any (fun r => r.request_key == request_key),
         { db with requests := db.requests.map (fun r =>
            if r.request_key = request_key then
              { r with
                status := new_status
                updated_at := now
                closed_at := if new_status = "Closed" then some now else none }
            else r) }) := by
      unfold update_request_status
      split
      · rfl
      · rename_i hc
        exact absurd h hc
    refine ⟨?_, ?_, ?_, ?_⟩
    · rw [hu]
      simp only [List.any_eq_true, beq_iff_eq]
    · intro r hr hk
      rw [hu] at hr
      rcases List.mem_map.mp hr with ⟨x, hx, hfx⟩
      by_cases hxk : x.request_key = request_key
      · rw [if_pos hxk] at hfx
        subst hfx
        refine ⟨rfl, rfl, ?_, ?_⟩
        · intro hc
          simp [hc]
        · intro hc
          simp [hc]
      · rw [if_neg hxk] at hfx
        subst hfx
        exact absurd hk hxk
    · intro r hr hk
      rw [hu] at hr
      rcases List.mem_map.mp hr with ⟨x, hx, hfx⟩
      by_cases hxk : x.request_key = request_key
      · rw [if_pos hxk] at hfx
        subst hfx
        exact absurd hxk hk
      · rw [if_neg hxk] at hfx
        subst hfx
        exact hx
    · rw [hu]

def rowC4 : RequestRow :=
  { id := 1, request_key := "ACCT-0001", status := "Open",
    requester_email := "a@x.com", requester_name := none, organization := none,
    lab_name := none, request_type := "Account Request",
    original_subject := none, original_body := none, source_email_id := none,
    conversation_id := none, assigned_to := none, ilab_link := none,
    created_at := 1, updated_at := 1, closed_at := none }

def dbC4 : DB := ⟨[rowC4], [], []⟩

/-- Witness for C4 at a concrete store: an unknown status is rejected with
no change, and a transition of the stored ticket to `Closed` succeeds. -/
theorem status_update_contract_witness :
    update_request_status dbC4 "ACCT-0001" "Reopened" 7 = (false, dbC4) ∧
    (update_request_status dbC4 "ACCT-0001" "Closed" 7).1 = true := by
  constructor
  · exact (status_update_contract dbC4 "ACCT-0001" "Reopened" 7).1 (by decide)
  · exact (((status_update_contract dbC4 "ACCT-0001" "Closed" 7).2 (by decide)).1).mpr
      ⟨rowC4, by decide, rfl⟩

/-! ### Claim C9 — comment creation on a missing target -/

/-- C9: `add_comment` on a key whose uppercased-stripped form matches no
stored row returns `none` and writes nothing; on a key that resolves to a
stored row it appends exactly one comment bound to that row and stamps that
row's `updated_at`. -/
theorem add_comment_contract (db : DB) (now : Nat)
    (request_key author_email body : String) (author_name : Option String)
    (comment_type : String) (email_subject : Option String) :
    ((¬ ∃ r ∈ db.requests, r.request_key = pyStrip (pyUpper request_key)) →
      add_comment db now request_key author_email body author_name comment_type
        email_subject = (none, db)) ∧
    ((∃ r ∈ db.requests, r.request_key = pyStrip (pyUpper request_key)) →
      ∃ req, get_request_by_key db request_key = some req) ∧
    (∀ req, get_request_by_key db request_key = some req →
      ∃ c,
        add_comment db now request_key author_email body author_name comment_type
            email_subject =
          (some c,
            { db with
              comments := db.comments ++ [c]
              requests := db.requests.map (fun r =>
                if r.id == req.id then { r with updated_at := now } else r) }) ∧
        c.request_id = req.id ∧ c.body = body ∧ c.comment_type = comment_type ∧
        c.created_at = now) := by
  refine ⟨?_, ?_, ?_⟩
  · intro h
    have hn : get_request_by_key db request_key = none := by
      rw [get_request_by_key, List.find?_eq_none]
      intro x hx
      simp only [beq_iff_eq]
      intro hk
      exact h ⟨x, hx, hk⟩
    rw [add_comment, hn]
  · rintro ⟨r, hr, hk⟩
    have : (db.requests.find? (fun x => x.request_key == pyStrip (pyUpper request_key))).isSome := by
      rw [List.find?_isSome]
      exact ⟨r, hr, by simpa using hk⟩
    rcases Option.isSome_iff_exists.mp this with ⟨req, hreq⟩
    exact ⟨req, hreq⟩
  · intro req hreq
    refine ⟨{ id := maxCommentId db.comments + 1, request_id := req.id,
              author_email := pyStrip (pyLower author_email),
              author_name := author_name, comment_type := comment_type,
              body := body, email_subject := email_subject,
              created_at := now }, ?_, rfl, rfl, rfl, rfl⟩
    rw [add_comment, hreq]

def dbC9 : DB := ⟨[rowC4], [], []⟩

/-- Witness for C9: a lookup miss writes nothing, and a hit (through the
case-normalizing lookup) appends one comment. -/
theorem add_comment_contract_witness :
    add_comment dbC9 9 "ACCT-0404" "a@b.c" "hi" none "note" none = (none, dbC9) ∧
    (add_comment dbC9 9 "acct-0001" "A@B.c" "hi" none "note" none).2.comments.length = 1 := by
  constructor
  · exact (add_comment_contract dbC9 9 "ACCT-0404" "a@b.c" "hi" none "note" none).1
      (by decide)
  · decide

/-! ### Claim C8 — name derivation -/

/-- Rendering of the amended description: split the local-part on the three
separators, drop empty segments, capitalize each remaining segment (first
letter up, rest down), join with single spaces; empty input gives
`Unknown`. -/
def specNameDropEmpty (email : String) : String :=
  if email = "" then "Unknown"
  else
    let localPart := email.data.takeWhile (fun c => c ≠ '@')
    ⟨List.intercalate [' ']
      (((splitSeps localPart).filter (fun p => ¬p.isEmpty)).map pyCapitalize)⟩

/-- C8 counterexample: the claim describes `parse_name_from_email` as
title-casing each split segment joined by spaces, which on
`"mary--jane@x.com"` would keep the empty segment between the two hyphens
and produce `"Mary  Jane"` (double space); the code filters empty segments
out and produces `"Mary Jane"`. -/
theorem name_derivation_counterexample :
    parse_name_from_email "mary--jane@x.com" = "Mary Jane" ∧
    specNameFromEmail "mary--jane@x.com" = "Mary  Jane" ∧
    parse_name_from_email "mary--jane@x.com" ≠ specNameFromEmail "mary--jane@x.com" := by
  refine ⟨by decide, by decide, by decide⟩

/-- C8 amended: `parse_name_from_email` splits the local-part on `.`, `_`,
`-`, drops empty segments, capitalizes each remaining segment and joins
them with single spaces; the claim's example and the empty-sender rule
hold as stated. -/
theorem name_derivation_amended (email : String) :
    parse_name_from_email email = specNameDropEmpty email ∧
    parse_name_from_email "mary-jane_doe@x.com" = "Mary Jane Doe" ∧
    parse_name_from_email "" = "Unknown" := by
  refine ⟨rfl, by decide, by decide⟩

/-! ### Webhook branch equations -/

theorem webhook_eq_body_required {db : DB} {now : Nat} {p : Payload}
    (hb : p.body = "") : webhook_new_request db now p = (.bodyRequired, db) := by
  rw [webhook_new_request, if_pos hb]

theorem webhook_eq_dup {db : DB} {now : Nat} {p : Payload} {r : RequestRow}
    (hb : p.body ≠ "") (hd : dupHit db p = some r) :
    webhook_new_request db now p = (.duplicate r.request_key, db) := by
  rw [webhook_new_request, if_neg hb, hd]

theorem webhook_eq_thread {db : DB} {now : Nat} {p : Payload} {r : RequestRow}
    (hb : p.body ≠ "") (hd : dupHit db p = none) (ht : threadHit db p = some r) :
    webhook_new_request db now p =
      (.commentAdded r.request_key,
       (add_comment db now r.request_key (strOr p.sender "unknown@unknown.com")
         p.body (some (threadAuthorName db p r)) "email_received" (some p.subject)).2) := by
  rw [webhook_new_request, if_neg hb, hd, ht]

theorem webhook_eq_parse {db : DB} {now : Nat} {p : Payload}
    (hb : p.body ≠ "") (hd : dupHit db p = none) (ht : threadHit db p = none) :
    webhook_new_request db now p =
      (if (parse_ilab_email p.subject p.body p.sender).is_valid = false then
        (.invalidParse, db)
       else
        match create_request db now
            (webhookCreateFields p (parse_ilab_email p.subject p.body p.sender)) with
        | some (row, db') => (.created row.request_key, db')
        | none => (.serverError, db)) := by
  rw [webhook_new_request, if_neg hb, hd, ht]

theorem get_all_requests_nofilter (db : DB) :
    get_all_requests db none none = sortByCreatedDesc db.requests := by
  unfold get_all_requests
  simp

/-- Characterization of a duplicate-scan hit: the found row records the
message id and is the latest-created recorder (first in the newest-first
listing; ties broken towards the earlier rowid by the stable model sort). -/
theorem dupHit_spec {db : DB} {p : Payload} {r : RequestRow}
    (h : dupHit db p = some r) :
    p.messageId ≠ "" ∧ r ∈ db.requests ∧ r.source_email_id = some p.messageId ∧
    ∀ x ∈ db.requests, x.source_email_id = some p.messageId →
      x.created_at ≤ r.created_at := by
  unfold dupHit at h
  by_cases hm : p.messageId ≠ ""
  · rw [if_pos hm, get_all_requests_nofilter] at h
    refine ⟨hm, ?_, ?_, ?_⟩
    · exact mem_sortByCreatedDesc.mp (List.mem_of_find?_eq_some h)
    · have := List.find?_some h
      simpa using this
    · intro x hx hxs
      exact find?_pairwise_bound (sorted_sortByCreatedDesc _) h x
        (mem_sortByCreatedDesc.mpr hx) (by simpa using hxs)
  · rw [if_neg hm] at h
    cases h

theorem dupHit_of_exists {db : DB} {p : Payload} (hm : p.messageId ≠ "")
    (hex : ∃ x ∈ db.requests, x.source_email_id = some p.messageId) :
    ∃ r, dupHit db p = some r := by
  unfold dupHit
  rw [if_pos hm, get_all_requests_nofilter]
  have hs : ((sortByCreatedDesc db.requests).find?
      (fun r => r.source_email_id == some p.messageId)).isSome := by
    rw [List.find?_isSome]
    obtain ⟨x, hx, hxs⟩ := hex
    exact ⟨x, mem_sortByCreatedDesc.mpr hx, by simpa using hxs⟩
  exact Option.isSome_iff_exists.mp hs

/-- Characterization of a conversation-threading hit: the found row carries
the conversation id and is first-created among all rows carrying it. -/
theorem threadHit_spec {db : DB} {p : Payload} {r : RequestRow}
    (h : threadHit db p = some r) :
    p.conversationId ≠ "" ∧ r ∈ db.requests ∧
    r.conversation_id = some p.conversationId ∧
    ∀ x ∈ db.requests, x.conversation_id = some p.conversationId →
      r.created_at ≤ x.created_at := by
  unfold threadHit at h
  by_cases hc : p.conversationId ≠ ""
  · rw [if_pos hc] at h
    unfold get_request_by_conversation_id at h
    rw [if_neg (by simpa using hc)] at h
    have hrmem : r ∈ sortByCreatedAsc (db.requests.filter
        (fun x => x.conversation_id == some p.conversationId)) := by
      cases hm : sortByCreatedAsc (db.requests.filter
          (fun x => x.conversation_id == some p.conversationId)) with
      | nil => rw [hm] at h; cases h
      | cons a t =>
        rw [hm] at h
        rw [List.head?_cons, Option.some.injEq] at h
        subst h
        exact List.mem_cons_self _ _
    have hrfil := mem_sortByCreatedAsc.mp hrmem
    have hrmem2 := List.mem_filter.mp hrfil
    refine ⟨hc, hrmem2.1, by simpa using hrmem2.2, ?_⟩
    intro x hx hxs
    exact head?_pairwise_min (sorted_sortByCreatedAsc _) h x
      (mem_sortByCreatedAsc.mpr (List.mem_filter.mpr ⟨hx, by simpa using hxs⟩))
  · rw [if_neg hc] at h
    cases h

theorem threadHit_of_exists {db : DB} {p : Payload} (hc : p.conversationId ≠ "")
    (hex : ∃ x ∈ db.requests, x.conversation_id = some p.conversationId) :
    ∃ r, threadHit db p = some r := by
  unfold threadHit
  rw [if_pos hc]
  unfold get_request_by_conversation_id
  rw [if_neg (by simpa using hc)]
  obtain ⟨x, hx, hxs⟩ := hex
  cases hm : sortByCreatedAsc (db.requests.filter
      (fun y => y.conversation_id == some p.conversationId)) with
  | nil =>
    exfalso
    have : x ∈ sortByCreatedAsc (db.requests.filter
        (fun y => y.conversation_id == some p.conversationId)) :=
      mem_sortByCreatedAsc.mpr (List.mem_filter.mpr ⟨hx, by simpa using hxs⟩)
    rw [hm] at this
    cases this
  | cons a t => exact ⟨a, rfl⟩

/-! ### Claim C10 — audit target-filter normalization -/

/-- C10: `get_audit_log` with a target filter returns exactly the (newest
`limit`) entries whose stored `target_id` equals the uppercased stripped
filter; since `log_audit_event` stores `target_id` verbatim, an entry whose
target id contains an ASCII lowercase letter is unreachable by any target
filter value. -/
theorem audit_target_filter_normalization (log : List AuditEntry) (t : String)
    (limit : Nat) (ht : t ≠ "") :
    get_audit_log log none (some t) none limit =
      ((log.filter (fun e => e.target_id == some (pyStrip (pyUpper t)))).reverse).take
        limit ∧
    (∀ e ∈ log, ∀ s, e.target_id = some s →
      (∃ c ∈ s.data, 97 ≤ c.toNat ∧ c.toNat ≤ 122) →
      ∀ f : String, f ≠ "" → e ∉ get_audit_log log none (some f) none limit) ∧
    (∀ (actor act : String) (tt tid : Option String) (su : Bool)
      (ip : Option String) (ev ts : Nat) (log' : List AuditEntry),
      log_audit_event log actor act tt tid none su ip ev ts true = .ok log' →
      log'.map (fun e => e.target_id) = log.map (fun e => e.target_id) ++ [tid]) := by
  refine ⟨?_, ?_, ?_⟩
  · simp [get_audit_log, ht]
  · intro e he s hs hlow f hf hmem
    unfold get_audit_log at hmem
    have hmem2 := List.mem_reverse.mp ((List.take_subset _ _) hmem)
    have hkeep := (List.mem_filter.mp hmem2).2
    simp [hf] at hkeep
    have hfe : e.target_id = some (pyStrip (pyUpper f)) := hkeep
    rw [hs, Option.some.injEq] at hfe
    obtain ⟨c, hc, hcl⟩ := hlow
    rw [hfe] at hc
    have hc2 : c ∈ upperChars f.data := mem_stripChars hc
    exact upperChars_not_lower hc2 hcl
  · intro actor act tt tid su ip ev ts log' h
    have he : log_audit_event log actor act tt tid none su ip ev ts true =
        .ok (log ++
          [{ event_id := ev, timestamp := ts,
             actor_email := pyStrip (pyLower actor), actor_ip := ip,
             action := act, target_type := tt, target_id := tid,
             details := "\x7b\x7d", success := su }]) := rfl
    rw [he, Except.ok.injEq] at h
    subst h
    simp

def entryC10 : AuditEntry :=
  { event_id := 1, timestamp := 1, actor_email := "nadia.clark@agilent.com",
    actor_ip := none, action := "user.role.update", target_type := some "user",
    target_id := some "bob@agilent.com", details := "\x7b\x7d", success := true }

/-- Witness for C10: an audit entry targeting a lowercase user email is
invisible to the exactly-matching target filter (and to any other). -/
theorem audit_target_filter_normalization_witness :
    get_audit_log [entryC10] none (some "acct-1") none 10 = [] ∧
    entryC10 ∉ get_audit_log [entryC10] none (some "bob@agilent.com") none 10 := by
  constructor
  · exact ((audit_target_filter_normalization [entryC10] "acct-1" 10
      (by decide)).1).trans (by decide)
  · exact (audit_target_filter_normalization [entryC10] "bob@agilent.com" 10
      (by decide)).2.1 entryC10 (List.mem_cons_self _ _) "bob@agilent.com" rfl
      ⟨'b', by decide, by decide⟩ "bob@agilent.com" (by decide)

/-! ### Claim C1 — duplicate idempotence -/

/-- Key of the earliest-created ticket recording a message id; this renders
the claim's (and spec §4.3 step 1's) "earliest-created record is canonical"
policy for comparison with the code's scan. -/
def earliestRecorderKey (db : DB) (mid : String) : Option String :=
  ((sortByCreatedAsc (db.requests.filter
    (fun r => r.source_email_id == some mid))).head?).map (fun r => r.request_key)

def rowC1a : RequestRow :=
  { rowC4 with
    id := 1
    request_key := "ACCT-0001"
    created_at := 1
    updated_at := 1
    source_email_id := some "M" }

def rowC1b : RequestRow :=
  { rowC4 with
    id := 2
    request_key := "ACCT-0002"
    created_at := 2
    updated_at := 2
    source_email_id := some "M" }

def dbC1 : DB := ⟨[rowC1a, rowC1b], [], []⟩

def pC1 : Payload := ⟨"s", "b", "", "M", ""⟩

/-- C1 counterexample: with two stored tickets recording message id `M`
(`ACCT-0001` created first, `ACCT-0002` created later), the webhook's
duplicate scan walks the newest-first listing and答 returns `ACCT-0002`,
not the earliest-created recorder `ACCT-0001` required by the claim. -/
theorem dedup_counterexample :
    earliestRecorderKey dbC1 "M" = some "ACCT-0001" ∧
    (webhook_new_request dbC1 5 pC1).1 = .duplicate "ACCT-0002" ∧
    (webhook_new_request dbC1 5 pC1).1 ≠ .duplicate "ACCT-0001" := by
  refine ⟨by decide, by decide, by decide⟩

/-- C1 amended: on a repeated message id the resolver performs no mutation
and returns a duplicate outcome carrying an existing recorder's key — the
key of the latest-created ticket recording that message id (the first hit
of the newest-first scan), not the earliest-created one. -/
theorem dedup_idempotence_amended (db : DB) (now : Nat) (p : Payload)
    (hb : p.body ≠ "") (hm : p.messageId ≠ "")
    (hex : ∃ x ∈ db.requests, x.source_email_id = some p.messageId) :
    ∃ r, r ∈ db.requests ∧ r.source_email_id = some p.messageId ∧
      (∀ x ∈ db.requests, x.source_email_id = some p.messageId →
        x.created_at ≤ r.created_at) ∧
      webhook_new_request db now p = (.duplicate r.request_key, db) := by
  obtain ⟨r, hd⟩ := dupHit_of_exists hm hex
  have hs := dupHit_spec hd
  exact ⟨r, hs.2.1, hs.2.2.1, hs.2.2.2, webhook_eq_dup hb hd⟩

/-- Witness for the amended C1 at the concrete two-recorder store. -/
theorem dedup_idempotence_amended_witness :
    ∃ r, r ∈ dbC1.requests ∧ r.source_email_id = some pC1.messageId ∧
      (∀ x ∈ dbC1.requests, x.source_email_id = some pC1.messageId →
        x.created_at ≤ r.created_at) ∧
      webhook_new_request dbC1 5 pC1 = (.duplicate r.request_key, dbC1) :=
  dedup_idempotence_amended dbC1 5 pC1 (by decide) (by decide)
    ⟨rowC1a, by decide, by decide⟩

/-! ### Claim C6 — resolver disposition order and exclusivity -/

/-- C6: the resolver performs exactly one disposition, decided in source
order: missing body short-circuits with a rejection; otherwise message-id
dedup is consulted first (its hit wins even when a conversation also
matches, with no mutation); then conversation threading (its hit wins even
when the body would not parse, appending exactly one comment); only then is
the body parsed, rejecting invalid extractions and otherwise creating the
one new ticket. -/
theorem resolver_disposition_order (db : DB) (now : Nat) (p : Payload) :
    (p.body = "" → webhook_new_request db now p = (.bodyRequired, db)) ∧
    (p.body ≠ "" → ∀ r, dupHit db p = some r →
      webhook_new_request db now p = (.duplicate r.request_key, db)) ∧
    (p.body ≠ "" → dupHit db p = none → ∀ r, threadHit db p = some r →
      webhook_new_request db now p =
        (.commentAdded r.request_key,
         (add_comment db now r.request_key (strOr p.sender "unknown@unknown.com")
           p.body (some (threadAuthorName db p r)) "email_received"
           (some p.subject)).2)) ∧
    (p.body ≠ "" → dupHit db p = none → threadHit db p = none →
      ((parse_ilab_email p.subject p.body p.sender).is_valid = false →
        webhook_new_request db now p = (.invalidParse, db)) ∧
      ((parse_ilab_email p.subject p.body p.sender).is_valid = true →
        webhook_new_request db now p =
          (match create_request db now
              (webhookCreateFields p (parse_ilab_email p.subject p.body p.sender)) with
           | some (row, db') => (.created row.request_key, db')
           | none => (.serverError, db)))) := by
  refine ⟨?_, ?_, ?_, ?_⟩
  · intro hb
    exact webhook_eq_body_required hb
  · intro hb r hd
    exact webhook_eq_dup hb hd
  · intro hb hd r ht
    exact webhook_eq_thread hb hd ht
  · intro hb hd ht
    constructor
    · intro hv
      rw [webhook_eq_parse hb hd ht, if_pos hv]
    · intro hv
      rw [webhook_eq_parse hb hd ht, if_neg (by rw [hv]; simp)]

def rowC6 : RequestRow :=
  { rowC4 with
    id := 1
    request_key := "ACCT-0001"
    created_at := 1
    source_email_id := some "M"
    conversation_id := some "C" }

def dbC6 : DB := ⟨[rowC6], [], []⟩

def pC6 : Payload := ⟨"re: hi", "plain reply", "someone@x.org", "M", "C"⟩

/-- Witness for C6: a payload whose message id and conversation id both
match the stored ticket takes the duplicate disposition (checked first)
and mutates nothing. -/
theorem resolver_disposition_order_witness :
    webhook_new_request dbC6 7 pC6 = (.duplicate "ACCT-0001", dbC6) :=
  (resolver_disposition_order dbC6 7 pC6).2.1 (by decide) rowC6 (by decide)

/-! ### Claim C7 — threading correctness -/

/-- C7: when the message id is not a duplicate and an existing ticket
carries the conversation id, the webhook appends exactly one comment tagged
`email_received` to the first-created such ticket, creates no ticket, and
reports that ticket's key.  The store hypotheses (distinct keys in
normalized form) hold for every store whose keys were produced by
`generate_request_key`. -/
theorem threading_correctness (db : DB) (now : Nat) (p : Payload) (r : RequestRow)
    (hkeys : db.requests.Pairwise (fun a b => a.request_key ≠ b.request_key))
    (hnorm : ∀ x ∈ db.requests, pyStrip (pyUpper x.request_key) = x.request_key)
    (hb : p.body ≠ "") (hd : dupHit db p = none) (ht : threadHit db p = some r) :
    r ∈ db.requests ∧ r.conversation_id = some p.conversationId ∧
    (∀ x ∈ db.requests, x.conversation_id = some p.conversationId →
      r.created_at ≤ x.created_at) ∧
    (webhook_new_request db now p).1 = .commentAdded r.request_key ∧
    (∃ c, (webhook_new_request db now p).2.comments = db.comments ++ [c] ∧
      c.request_id = r.id ∧ c.comment_type = "email_received" ∧
      c.body = p.body ∧ c.email_subject = some p.subject) ∧
    (webhook_new_request db now p).2.requests.map (fun x => x.request_key) =
      db.requests.map (fun x => x.request_key) := by
  have hs := threadHit_spec ht
  have hmem : r ∈ db.requests := hs.2.1
  have hk : get_request_by_key db r.request_key = some r := by
    unfold get_request_by_key
    rw [hnorm r hmem]
    exact find?_key_unique hkeys hmem
  have hadd : add_comment db now r.request_key (strOr p.sender "unknown@unknown.com")
      p.body (some (threadAuthorName db p r)) "email_received" (some p.subject) =
      (some
        { id := maxCommentId db.comments + 1, request_id := r.id,
          author_email := pyStrip (pyLower (strOr p.sender "unknown@unknown.com")),
          author_name := some (threadAuthorName db p r),
          comment_type := "email_received", body := p.body,
          email_subject := some p.subject, created_at := now },
       { db with
         comments := db.comments ++
           [{ id := maxCommentId db.comments + 1, request_id := r.id,
              author_email := pyStrip (pyLower (strOr p.sender "unknown@unknown.com")),
              author_name := some (threadAuthorName db p r),
              comment_type := "email_received", body := p.body,
              email_subject := some p.subject, created_at := now }]
         requests := db.requests.map (fun x =>
           if x.id == r.id then { x with updated_at := now } else x) }) := by
    rw [add_comment, hk]
  have heq : webhook_new_request db now p =
      (.commentAdded r.request_key,
       (add_comment db now r.request_key (strOr p.sender "unknown@unknown.com")
         p.body (some (threadAuthorName db p r)) "email_received"
         (some p.subject)).2) := webhook_eq_thread hb hd ht
  rw [hadd] at heq
  refine ⟨hmem, hs.2.2.1, hs.2.2.2, ?_, ?_, ?_⟩
  · rw [heq]
  · refine ⟨{ id := maxCommentId db.comments + 1, request_id := r.id,
              author_email := pyStrip (pyLower (strOr p.sender "unknown@unknown.com")),
              author_name := some (threadAuthorName db p r),
              comment_type := "email_received", body := p.body,
              email_subject := some p.subject, created_at := now },
      ?_, rfl, rfl, rfl, rfl⟩
    rw [heq]
  · rw [heq]
    rw [List.map_map]
    apply List.map_congr_left
    intro x _
    simp only [Function.comp_apply]
    by_cases hx : (x.id == r.id) = true
    · rw [if_pos hx]
    · rw [if_neg hx]

def rowC7a : RequestRow :=
  { rowC4 with
    id := 1
    request_key := "ACCT-0001"
    created_at := 1
    conversation_id := some "C1"
    requester_email := "jane@x.org" }

def rowC7b : RequestRow :=
  { rowC4 with
    id := 2
    request_key := "ACCT-0002"
    created_at := 2
    conversation_id := some "C1"
    requester_email := "bob@y.org" }

def dbC7 : DB := ⟨[rowC7a, rowC7b], [], []⟩

def pC7 : Payload := ⟨"RE: account", "thanks!", "jane@x.org", "M2", "C1"⟩

/-- Witness for C7: a reply into conversation `C1` (two tickets share it)
is threaded onto the first-created one. -/
theorem threading_correctness_witness :
    rowC7a ∈ dbC7.requests ∧ rowC7a.conversation_id = some pC7.conversationId ∧
    (∀ x ∈ dbC7.requests, x.conversation_id = some pC7.conversationId →
      rowC7a.created_at ≤ x.created_at) ∧
    (webhook_new_request dbC7 9 pC7).1 = .commentAdded rowC7a.request_key ∧
    (∃ c, (webhook_new_request dbC7 9 pC7).2.comments = dbC7.comments ++ [c] ∧
      c.request_id = rowC7a.id ∧ c.comment_type = "email_received" ∧
      c.body = pC7.body ∧ c.email_subject = some pC7.subject) ∧
    (webhook_new_request dbC7 9 pC7).2.requests.map (fun x => x.request_key) =
      dbC7.requests.map (fun x => x.request_key) :=
  threading_correctness dbC7 9 pC7 rowC7a (by decide) (by decide) (by decide)
    (by decide) (by decide)

/-! ### Claim C5 — extraction validity and rejection -/

theorem extractEmailValue_sound {cs v : List Char}
    (h : extractEmailValue cs = some v) :
    v ≠ [] ∧ ∀ c ∈ v, pyIsSpace c = false := by
  unfold extractEmailValue at h
  dsimp only at h
  split at h
  · rename_i hat
    rw [Option.some.injEq] at h
    subst h
    constructor
    · intro hnil
      rw [hnil] at hat
      simp at hat
    · intro c hc
      have hp := List.mem_takeWhile_imp hc
      simp only [decide_eq_true_eq] at hp
      cases hps : pyIsSpace c
      · rfl
      · exact absurd hps hp
  · cases h

theorem searchKeyGo_sound {key : List Char} {ext : List Char → Option (List Char)}
    (P : List Char → Prop) (hext : ∀ cs v, ext cs = some v → P v) :
    ∀ (s : List Char) (flag : Bool) (v : List Char),
      searchKeyGo key ext s flag = some v → P v := by
  intro s
  induction s with
  | nil =>
    intro flag v h
    simp [searchKeyGo] at h
  | cons c cs ih =>
    intro flag v h
    rw [searchKeyGo] at h
    rcases h1 : (if flag ∧ isPrefixCI key (c :: cs) then
        ext ((c :: cs).drop key.length) else none) with _ | v'
    · rw [h1] at h
      simp only [Option.orElse] at h
      exact ih _ v h
    · rw [h1] at h
      simp only [Option.orElse, Option.some.injEq] at h
      subst h
      split at h1
      · exact hext _ _ h1
      · cases h1

theorem stripChars_no_space {l : List Char} (h : ∀ c ∈ l, pyIsSpace c = false) :
    stripChars l = l := by
  have h1 : l.dropWhile pyIsSpace = l := by
    cases l with
    | nil => rfl
    | cons c cs => simp [List.dropWhile_cons, h c (List.mem_cons_self _ _)]
  have h2 : l.reverse.dropWhile pyIsSpace = l.reverse := by
    cases hrev : l.reverse with
    | nil => rfl
    | cons c cs =>
      have hm : c ∈ l := by
        rw [← List.mem_reverse, hrev]
        exact List.mem_cons_self _ _
      simp [List.dropWhile_cons, h c hm]
  unfold stripChars
  rw [h1, h2, List.reverse_reverse]

/-- An extracted requester email is always a non-empty string. -/
theorem parse_requester_email_ne_empty {subject body sender s : String}
    (h : (parse_ilab_email subject body sender).requester_email = some s) :
    s ≠ "" := by
  have h2 : (searchKey "email:" extractEmailValue (strip_html body).data).map
      (fun v => pyLower ⟨stripChars v⟩) = some s := h
  rw [Option.map_eq_some'] at h2
  obtain ⟨v, hv, hs⟩ := h2
  have hsound := searchKeyGo_sound
    (fun v => v ≠ [] ∧ ∀ c ∈ v, pyIsSpace c = false)
    (fun cs v hcv => extractEmailValue_sound hcv) _ _ _ hv
  rw [stripChars_no_space hsound.2] at hs
  intro hempty
  rw [hempty] at hs
  have hdata : lowerChars v = [] := congrArg String.data hs
  rw [lowerChars, List.map_eq_nil_iff] at hdata
  exact hsound.1 hdata

/-- C5: the extractor's validity flag is true exactly when a (necessarily
non-empty) requester email or a non-empty requester name was obtained
(Python truthiness: an extracted empty-string name — possible only through
the subject fallback — counts as nothing); and an event that reaches the
extraction stage with an invalid parse leaves the store untouched and is
answered with HTTP 400. -/
theorem extraction_validity (subject body sender : String) (db : DB) (now : Nat)
    (p : Payload) :
    ((parse_ilab_email subject body sender).is_valid = true ↔
      (pyTruthyOpt (parse_ilab_email subject body sender).requester_email = true ∨
       pyTruthyOpt (parse_ilab_email subject body sender).requester_name = true)) ∧
    (∀ s, (parse_ilab_email subject body sender).requester_email = some s →
      s ≠ "") ∧
    (dupHit db p = none → threadHit db p = none →
      (parse_ilab_email p.subject p.body p.sender).is_valid = false →
      (webhook_new_request db now p).2 = db ∧
      httpCode (webhook_new_request db now p).1 = 400) := by
  refine ⟨?_, ?_, ?_⟩
  · exact Iff.of_eq (Bool.or_eq_true _ _)
  · intro s hs
    exact parse_requester_email_ne_empty hs
  · intro hd ht hv
    by_cases hb : p.body = ""
    · rw [webhook_eq_body_required hb]
      exact ⟨rfl, rfl⟩
    · rw [webhook_eq_parse hb hd ht, if_pos hv]
      exact ⟨rfl, rfl⟩

def dbC5 : DB := ⟨[], [], []⟩

def pC5 : Payload := ⟨"Hello", "no recognizable fields", "", "", ""⟩

/-- Witness for C5: a body with no recognizable fields under a
non-matching subject is invalid and the webhook rejects it with 400,
writing nothing. -/
theorem extraction_validity_witness :
    (parse_ilab_email "Hello" "no recognizable fields" "").is_valid = false ∧
    (webhook_new_request dbC5 3 pC5).2 = dbC5 ∧
    httpCode (webhook_new_request dbC5 3 pC5).1 = 400 := by
  refine ⟨by decide, ?_, ?_⟩
  · exact ((extraction_validity "Hello" "no recognizable fields" "" dbC5 3 pC5).2.2
      (by decide) (by decide) (by decide)).1
  · exact ((extraction_validity "Hello" "no recognizable fields" "" dbC5 3 pC5).2.2
      (by decide) (by decide) (by decide)).2

/-! ### Claim C2 — key monotonicity

Arbitrary interleaving of `generate_request_key` (a read of `MAX(id)`)
with the subsequent `INSERT` is modelled by `CreateAttempt`: each attempt
carries the `MAX(id)` value it observed when its key was generated, which
can be any value the store's `MAX(id)` had at or before the insert (the
store only ever grows, so this is exactly the hypothesis
`observed ≤ maxRowId` checked by `validTrace`). -/

theorem decDigitsGo_eq (fuel : Nat) :
    ∀ n, n ≤ fuel → decDigitsGo fuel n = Nat.digits 10 n := by
  induction fuel with
  | zero =>
    intro n hn
    have : n = 0 := Nat.le_zero.mp hn
    subst this
    simp [decDigitsGo]
  | succ fuel ih =>
    intro n hn
    match n with
    | 0 => simp [decDigitsGo]
    | m + 1 =>
      rw [decDigitsGo]
      have hdiv : (m + 1) / 10 < m + 1 := Nat.div_lt_self (Nat.succ_pos m) (by norm_num)
      rw [ih ((m + 1) / 10) (by omega)]
      rw [Nat.digits_def' (by norm_num : 1 < 10) (Nat.succ_pos m)]

theorem decDigitsNat_eq (n : Nat) : decDigitsNat n = Nat.digits 10 n :=
  decDigitsGo_eq n n (Nat.le_refl n)

theorem digit_unmap : ∀ d, d < 10 → (Char.ofNat (48 + d)).toNat - 48 = d := by decide

theorem digit_ne_zero_char : ∀ d, d < 10 → d ≠ 0 → Char.ofNat (48 + d) ≠ '0' := by decide

theorem decRepr_inj {a b : Nat} (h : decRepr a = decRepr b) : a = b := by
  unfold decRepr at h
  by_cases ha : a = 0 <;> by_cases hb : b = 0
  · rw [ha, hb]
  · exfalso
    rw [if_pos ha, if_neg hb, decDigitsNat_eq] at h
    have hne : Nat.digits 10 b ≠ [] := Nat.digits_ne_nil_iff_ne_zero.mpr hb
    have hlast := Nat.getLast_digit_ne_zero 10 hb
    cases hrev : (Nat.digits 10 b).reverse with
    | nil => exact hne (by simpa using congrArg List.reverse hrev)
    | cons c t =>
      rw [hrev] at h
      have hc : c = (Nat.digits 10 b).getLast hne := by
        have h1 : (Nat.digits 10 b).reverse.head? = some c := by rw [hrev]; rfl
        rw [List.head?_reverse, List.getLast?_eq_getLast _ hne, Option.some.injEq] at h1
        exact h1.symm
      have hcm : c ∈ Nat.digits 10 b := by
        rw [hc]
        exact List.getLast_mem hne
      have hclt : c < 10 := Nat.digits_lt_base (by norm_num) hcm
      have hcne : c ≠ 0 := by rw [hc]; exact hlast
      have : ('0' : Char) = Char.ofNat (48 + c) := by
        have := congrArg List.head? h
        simpa using this
      exact digit_ne_zero_char c hclt hcne this.symm
  · exfalso
    rw [if_neg ha, if_pos hb, decDigitsNat_eq] at h
    have hne : Nat.digits 10 a ≠ [] := Nat.digits_ne_nil_iff_ne_zero.mpr ha
    have hlast := Nat.getLast_digit_ne_zero 10 ha
    cases hrev : (Nat.digits 10 a).reverse with
    | nil => exact hne (by simpa using congrArg List.reverse hrev)
    | cons c t =>
      rw [hrev] at h
      have hc : c = (Nat.digits 10 a).getLast hne := by
        have h1 : (Nat.digits 10 a).reverse.head? = some c := by rw [hrev]; rfl
        rw [List.head?_reverse, List.getLast?_eq_getLast _ hne, Option.some.injEq] at h1
        exact h1.symm
      have hcm : c ∈ Nat.digits 10 a := by
        rw [hc]
        exact List.getLast_mem hne
      have hclt : c < 10 := Nat.digits_lt_base (by norm_num) hcm
      have hcne : c ≠ 0 := by rw [hc]; exact hlast
      have : Char.ofNat (48 + c) = ('0' : Char) := by
        have := congrArg List.head? h
        simpa using this
      exact digit_ne_zero_char c hclt hcne this
  · rw [if_neg ha, if_neg hb, decDigitsNat_eq, decDigitsNat_eq] at h
    have hmap : ∀ n, n ≠ 0 →
        ((Nat.digits 10 n).reverse.map (fun d => Char.ofNat (48 + d))).map
          (fun c => c.toNat - 48) = (Nat.digits 10 n).reverse := by
      intro n _
      rw [List.map_map]
      have : ∀ d ∈ (Nat.digits 10 n).reverse,
          ((fun c => c.toNat - 48) ∘ fun d => Char.ofNat (48 + d)) d = id d := by
        intro d hd
        have hdm : d ∈ Nat.digits 10 n := List.mem_reverse.mp hd
        have : d < 10 := Nat.digits_lt_base (by norm_num) hdm
        simp only [Function.comp_apply, id]
        exact digit_unmap d this
      rw [List.map_congr_left this, List.map_id]
    have h2 := congrArg (List.map (fun c => c.toNat - 48)) h
    rw [hmap a ha, hmap b hb] at h2
    have h3 := List.reverse_injective h2
    exact Nat.digits_inj_iff.mp h3

theorem dropWhile_zeros_append (k : Nat) (l : List Char) :
    (List.replicate k '0' ++ l).dropWhile (fun c => c == '0') =
      l.dropWhile (fun c => c == '0') := by
  induction k with
  | zero => rfl
  | succ k ih => simp [List.replicate_succ, List.dropWhile_cons, ih]

theorem decRepr_ne_nil (n : Nat) : decRepr n ≠ [] := by
  unfold decRepr
  by_cases hn : n = 0
  · simp [hn]
  · rw [if_neg hn, decDigitsNat_eq]
    intro hcon
    rw [List.map_eq_nil_iff, List.reverse_eq_nil_iff] at hcon
    exact Nat.digits_ne_nil_iff_ne_zero.mpr hn hcon

theorem dropWhile_decRepr (n : Nat) :
    (decRepr n).dropWhile (fun c => c == '0') = if n = 0 then [] else decRepr n := by
  by_cases hn : n = 0
  · rw [if_pos hn, hn]
    rfl
  · rw [if_neg hn]
    unfold decRepr
    rw [if_neg hn, decDigitsNat_eq]
    have hne : Nat.digits 10 n ≠ [] := Nat.digits_ne_nil_iff_ne_zero.mpr hn
    have hlast := Nat.getLast_digit_ne_zero 10 hn
    cases hrev : (Nat.digits 10 n).reverse with
    | nil => exact absurd (by simpa using congrArg List.reverse hrev) hne
    | cons c t =>
      have hc : c = (Nat.digits 10 n).getLast hne := by
        have h1 : (Nat.digits 10 n).reverse.head? = some c := by rw [hrev]; rfl
        rw [List.head?_reverse, List.getLast?_eq_getLast _ hne, Option.some.injEq] at h1
        exact h1.symm
      have hcm : c ∈ Nat.digits 10 n := by
        rw [hc]
        exact List.getLast_mem hne
      have hclt : c < 10 := Nat.digits_lt_base (by norm_num) hcm
      have hcne : c ≠ 0 := by rw [hc]; exact hlast
      rw [List.map_cons, List.dropWhile_cons]
      have : (Char.ofNat (48 + c) == '0') = false := by
        simpa using digit_ne_zero_char c hclt hcne
      rw [this]
      simp

theorem pad4_inj {a b : Nat} (h : pad4 a = pad4 b) : a = b := by
  have ha := congrArg (List.dropWhile (fun c => c == '0')) h
  unfold pad4 at ha
  rw [dropWhile_zeros_append, dropWhile_zeros_append, dropWhile_decRepr,
    dropWhile_decRepr] at ha
  by_cases h0a : a = 0 <;> by_cases h0b : b = 0
  · rw [h0a, h0b]
  · rw [if_pos h0a, if_neg h0b] at ha
    exact absurd ha.symm (decRepr_ne_nil b)
  · rw [if_neg h0a, if_pos h0b] at ha
    exact absurd ha (decRepr_ne_nil a)
  · rw [if_neg h0a, if_neg h0b] at ha
    exact decRepr_inj ha

theorem acctKey_inj {a b : Nat} (h : acctKey a = acctKey b) : a = b := by
  have hd := congrArg String.data h
  unfold acctKey at hd
  have hd2 : "ACCT-".data ++ pad4 a = "ACCT-".data ++ pad4 b := hd
  exact pad4_inj (List.append_cancel_left hd2)

/-- One creation attempt of the interleaving model: `observed` is the
`MAX(id)` read by `generate_request_key` when this attempt's key was
generated. -/
structure CreateAttempt where
  observed : Nat
  now : Nat
  fields : CreateFields
  deriving Repr, DecidableEq

/-- The insert half of `create_request` executed against the current store
with a previously generated key.  `create_request` itself is the special
case where the observation is current (see `tryCreateObserved_create`). -/
def tryCreateObserved (db : DB) (a : CreateAttempt) : Option RequestRow × DB :=
  let row := mkRequestRow (maxRowId db.requests + 1) (acctKey (a.observed + 1))
    a.now a.fields
  match insertRequest db.requests row with
  | none => (none, db)
  | some rs => (some row, { db with requests := rs })

theorem tryCreateObserved_create (db : DB) (now : Nat) (f : CreateFields) :
    tryCreateObserved db ⟨maxRowId db.requests, now, f⟩ =
      match create_request db now f with
      | some (r, db') => (some r, db')
      | none => (none, db) := by
  unfold tryCreateObserved create_request generate_request_key
  dsimp only
  cases insertRequest db.requests
      (mkRequestRow (maxRowId db.requests + 1) (acctKey (maxRowId db.requests + 1)) now f) <;>
    rfl

/-- Run a sequence of (possibly interleaved, possibly failing) creation
attempts, collecting each attempt's outcome. -/
def runCreates (db : DB) : List CreateAttempt → DB × List (Option RequestRow)
  | [] => (db, [])
  | a :: rest =>
    let step := tryCreateObserved db a
    let cont := runCreates step.2 rest
    (cont.1, step.1 :: cont.2)

/-- A trace is valid when every attempt's observed `MAX(id)` is at most the
store's `MAX(id)` at its insert (the read happened at or before the
insert, and `MAX(id)` never decreases). -/
def validTrace (db : DB) : List CreateAttempt → Bool
  | [] => true
  | a :: rest =>
    decide (a.observed ≤ maxRowId db.requests) &&
    validTrace (tryCreateObserved db a).2 rest

/-- Store shape maintained by creations: rowids are `1..n` in insertion
order and every key is the rendering of its rowid. -/
def SeqDB (rs : List RequestRow) : Prop :=
  rs.map (fun r => r.id) = List.range' 1 rs.length ∧
  ∀ r ∈ rs, r.request_key = acctKey r.id

theorem foldl_max_range' (n : Nat) : (List.range' 1 n).foldl max 0 = n := by
  induction n with
  | zero => rfl
  | succ n ih =>
    rw [List.range'_1_concat, List.foldl_append, ih]
    simp [Nat.max_def]
    omega

theorem maxRowId_of_seq {rs : List RequestRow}
    (h : rs.map (fun r => r.id) = List.range' 1 rs.length) :
    maxRowId rs = rs.length := by
  unfold maxRowId
  rw [h, foldl_max_range']

theorem seq_key_mem {rs : List RequestRow} (hs : SeqDB rs) (m : Nat) :
    (rs.any (fun x => x.request_key == acctKey m)) = true ↔
      1 ≤ m ∧ m ≤ rs.length := by
  rw [List.any_eq_true]
  constructor
  · rintro ⟨x, hx, hk⟩
    rw [beq_iff_eq, hs.2 x hx] at hk
    have hid : x.id = m := acctKey_inj hk
    have hxm : x.id ∈ rs.map (fun r => r.id) := List.mem_map.mpr ⟨x, hx, rfl⟩
    rw [hs.1, List.mem_range'] at hxm
    obtain ⟨i, hi, hieq⟩ := hxm
    omega
  · rintro ⟨h1, h2⟩
    have hm : m ∈ rs.map (fun r => r.id) := by
      rw [hs.1, List.mem_range']
      exact ⟨m - 1, by omega, by omega⟩
    rcases List.mem_map.mp hm with ⟨x, hx, hxm⟩
    exact ⟨x, hx, by rw [beq_iff_eq, hs.2 x hx, hxm]⟩

theorem mkRequestRow_key (i : Nat) (k : String) (n : Nat) (f : CreateFields) :
    (mkRequestRow i k n f).request_key = k := rfl

theorem tryCreate_cases {db : DB} {a : CreateAttempt} (hs : SeqDB db.requests)
    (hob : a.observed ≤ db.requests.length) :
    (a.observed < db.requests.length ∧ tryCreateObserved db a = (none, db)) ∨
    (a.observed = db.requests.length ∧
      tryCreateObserved db a =
        (some (mkRequestRow (db.requests.length + 1)
          (acctKey (db.requests.length + 1)) a.now a.fields),
         { db with requests := db.requests ++
           [mkRequestRow (db.requests.length + 1)
             (acctKey (db.requests.length + 1)) a.now a.fields] })) := by
  have hmax : maxRowId db.requests = db.requests.length := maxRowId_of_seq hs.1
  by_cases hlt : a.observed < db.requests.length
  · left
    refine ⟨hlt, ?_⟩
    have hdup : (db.requests.any
        (fun x => x.request_key == acctKey (a.observed + 1))) = true :=
      (seq_key_mem hs _).mpr ⟨by omega, by omega⟩
    unfold tryCreateObserved insertRequest
    dsimp only [mkRequestRow_key]
    rw [hdup]
    rfl
  · right
    have heq : a.observed = db.requests.length := by omega
    refine ⟨heq, ?_⟩
    have hdup : (db.requests.any
        (fun x => x.request_key == acctKey (a.observed + 1))) = false := by
      rw [← Bool.not_eq_true, seq_key_mem hs]
      omega
    rw [heq] at hdup
    unfold tryCreateObserved insertRequest
    dsimp only [mkRequestRow_key]
    rw [hmax, heq, hdup]
    rfl

theorem SeqDB_append {rs : List RequestRow} (hs : SeqDB rs) (now : Nat)
    (f : CreateFields) :
    SeqDB (rs ++ [mkRequestRow (rs.length + 1) (acctKey (rs.length + 1)) now f]) := by
  constructor
  · rw [List.map_append, hs.1]
    simp only [List.length_append, List.length_cons, List.length_nil,
      List.map_cons, List.map_nil, mkRequestRow]
    rw [List.range'_1_concat]
    simp [Nat.add_comm]
  · intro r hr
    rcases List.mem_append.mp hr with h1 | h2
    · exact hs.2 r h1
    · have : r = mkRequestRow (rs.length + 1) (acctKey (rs.length + 1)) now f := by
        simpa using h2
      rw [this]
      rfl

theorem SeqDB_keys_distinct {rs : List RequestRow} (hs : SeqDB rs) :
    rs.Pairwise (fun a b => a.request_key ≠ b.request_key) := by
  have hnd : (rs.map (fun r => r.id)).Nodup := by
    rw [hs.1]
    exact List.nodup_range' _ _
  rw [List.Nodup, List.pairwise_map] at hnd
  refine hnd.imp_of_mem ?_
  intro a b ha hb hne hkeys
  apply hne
  rw [hs.2 a ha, hs.2 b hb] at hkeys
  exact acctKey_inj hkeys

/-- C2: from any sequentially keyed store, any valid sequence of creation
attempts — with key generation and insertion arbitrarily interleaved, and
with failures — appends exactly the successful rows in order; the
successful keys are the renderings of strictly increasing fresh numbers,
and the final store's keys stay pairwise distinct, so no failure ever
causes a number to be reused. -/
theorem key_monotonicity (db : DB) (attempts : List CreateAttempt)
    (hs : SeqDB db.requests) (hv : validTrace db attempts = true) :
    SeqDB (runCreates db attempts).1.requests ∧
    (runCreates db attempts).1.requests =
      db.requests ++ ((runCreates db attempts).2.filterMap id) ∧
    List.Chain' (fun x y => x.id < y.id)
      ((runCreates db attempts).2.filterMap id) ∧
    (∀ r ∈ (runCreates db attempts).2.filterMap id,
      r.request_key = acctKey r.id ∧ db.requests.length < r.id) ∧
    (runCreates db attempts).1.requests.Pairwise
      (fun a b => a.request_key ≠ b.request_key) := by
  induction attempts generalizing db with
  | nil =>
    refine ⟨hs, by simp [runCreates], by simp [runCreates], by simp [runCreates],
      SeqDB_keys_distinct hs⟩
  | cons a rest ih =>
    rw [validTrace, Bool.and_eq_true, decide_eq_true_eq] at hv
    have hob : a.observed ≤ db.requests.length := by
      have := hv.1
      rw [maxRowId_of_seq hs.1] at this
      exact this
    rcases tryCreate_cases hs hob with ⟨hlt, heq⟩ | ⟨hobs, heq⟩
    · have hv2 : validTrace db rest = true := by
        have h2 := hv.2
        rw [heq] at h2
        exact h2
      have hrun : runCreates db (a :: rest) =
          ((runCreates db rest).1, none :: (runCreates db rest).2) := by
        rw [runCreates, heq]
      obtain ⟨ih1, ih2, ih3, ih4, ih5⟩ := ih db hs hv2
      rw [hrun]
      simp only [List.filterMap_cons_none (by rfl : (id (none : Option RequestRow)) = none)]
      exact ⟨ih1, ih2, ih3, ih4, ih5⟩
    · have hs' : SeqDB (db.requests ++
          [mkRequestRow (db.requests.length + 1) (acctKey (db.requests.length + 1))
            a.now a.fields]) := SeqDB_append hs a.now a.fields
      have hv2 : validTrace
          { db with requests := db.requests ++
            [mkRequestRow (db.requests.length + 1) (acctKey (db.requests.length + 1))
              a.now a.fields] } rest = true := by
        have h2 := hv.2
        rw [heq] at h2
        exact h2
      have hrun : runCreates db (a :: rest) =
          ((runCreates { db with requests := db.requests ++
              [mkRequestRow (db.requests.length + 1) (acctKey (db.requests.length + 1))
                a.now a.fields] } rest).1,
           some (mkRequestRow (db.requests.length + 1)
              (acctKey (db.requests.length + 1)) a.now a.fields) ::
            (runCreates { db with requests := db.requests ++
              [mkRequestRow (db.requests.length + 1) (acctKey (db.requests.length + 1))
                a.now a.fields] } rest).2) := by
        rw [runCreates, heq]
      obtain ⟨ih1, ih2, ih3, ih4, ih5⟩ := ih _ hs' hv2
      rw [hrun]
      dsimp only
      rw [List.filterMap_cons_some (by rfl :
        id (some (mkRequestRow (db.requests.length + 1)
          (acctKey (db.requests.length + 1)) a.now a.fields)) =
        some (mkRequestRow (db.requests.length + 1)
          (acctKey (db.requests.length + 1)) a.now a.fields))]
      refine ⟨ih1, ?_, ?_, ?_, ih5⟩
      · rw [ih2]
        simp
      · rw [List.chain'_cons']
        constructor
        · intro y hy
          have hymem : y ∈ (runCreates { db with requests := db.requests ++
              [mkRequestRow (db.requests.length + 1)
                (acctKey (db.requests.length + 1)) a.now a.fields] }
                rest).2.filterMap id := by
            cases hl : (runCreates { db with requests := db.requests ++
                [mkRequestRow (db.requests.length + 1)
                  (acctKey (db.requests.length + 1)) a.now a.fields] }
                  rest).2.filterMap id with
            | nil => rw [hl] at hy; cases hy
            | cons z t =>
              rw [hl] at hy
              rw [Option.mem_def, List.head?_cons, Option.some.injEq] at hy
              rw [← hy]
              exact List.mem_cons_self _ _
          have hbound := (ih4 y hymem).2
          simp only [List.length_append, List.length_cons, List.length_nil] at hbound
          show (mkRequestRow (db.requests.length + 1)
            (acctKey (db.requests.length + 1)) a.now a.fields).id < y.id
          simp only [mkRequestRow]
          omega
        · exact ih3
      · intro r hr
        rcases List.mem_cons.mp hr with h1 | h2
        · subst h1
          exact ⟨rfl, by simp [mkRequestRow]⟩
        · have h3 := ih4 r h2
          refine ⟨h3.1, ?_⟩
          have := h3.2
          simp only [List.length_append, List.length_cons, List.length_nil] at this
          omega

def fieldsC2 : CreateFields :=
  { requester_email := "a@x.com", requester_name := none, organization := none,
    original_subject := none, original_body := none, source_email_id := none,
    conversation_id := none, request_type := "Account Request",
    ilab_link := none, lab_name := none }

/-- Three interleaved attempts from an empty store: the first generates and
inserts `ACCT-0001`; the second generated its key from the same stale
`MAX(id) = 0` and fails on the key collision without changing the store;
the third observes `MAX(id) = 1` and inserts `ACCT-0002`. -/
def attemptsC2 : List CreateAttempt :=
  [⟨0, 1, fieldsC2⟩, ⟨0, 2, fieldsC2⟩, ⟨1, 3, fieldsC2⟩]

/-- Witness for C2 on the concrete interleaved trace. -/
theorem key_monotonicity_witness :
    SeqDB (runCreates ⟨[], [], []⟩ attemptsC2).1.requests ∧
    (runCreates ⟨[], [], []⟩ attemptsC2).1.requests =
      (DB.mk [] [] []).requests ++
        ((runCreates ⟨[], [], []⟩ attemptsC2).2.filterMap id) ∧
    List.Chain' (fun x y => x.id < y.id)
      ((runCreates ⟨[], [], []⟩ attemptsC2).2.filterMap id) ∧
    (∀ r ∈ (runCreates ⟨[], [], []⟩ attemptsC2).2.filterMap id,
      r.request_key = acctKey r.id ∧ (DB.mk [] [] []).requests.length < r.id) ∧
    (runCreates ⟨[], [], []⟩ attemptsC2).1.requests.Pairwise
      (fun a b => a.request_key ≠ b.request_key) :=
  key_monotonicity ⟨[], [], []⟩ attemptsC2 ⟨rfl, by simp⟩ (by decide)

end AcctDash
